import Mathlib

/-!
# IkonPrintzz: the WebSocket hub (`internal/websocket/hub.go`)

A shallow embedding of `Hub.Run` and `Hub.BroadcastMessage`, of the HTTP
handlers that call `BroadcastMessage`, and of the in-memory repositories, the
file service and the authentication code around them, with the properties
proved over it.

Modelling decisions.

* A `*Client` is a pointer; only its identity and its `send` channel matter to
  the hub.  A client is a `ClientPtr` and the heap of `send` channels is the
  field `send` of `HubState`.
* A Go buffered channel is its queue of pending values, its capacity and its
  closed flag (`Chan`).  Sending on a closed channel and closing a closed
  channel are run-time panics in Go; a step that panics returns
  `Except.error`.  The `send` queues are buffered (positive capacity): a value
  handed directly to a reader that is already waiting is the same as the value
  entering the empty buffer and being taken by that reader at once.
* `Hub.Clients` is a `map[*Client]bool`: a finite map with distinct keys,
  here an `AList`.  `for client := range h.Clients` visits every key once (the
  loop deletes only the key it is visiting); the visiting order is not fixed
  by Go, and `broadcastLoop_perm` shows that the outcome does not depend on it.
* `Hub.Run` is an endless `for { select { ... } }`; `RunStep` is one
  iteration, given the request that the `select` received.
* `log.Println` lines of `Run` are not part of the state.  The `sync.RWMutex`
  calls bracket each branch and do not change what a branch computes.
-/

namespace IkonPrintzz

deriving instance DecidableEq for Except

/-! ## Go channels -/

/-- Wire frame, the `[]byte` passed through the channels, kept as the text
whose UTF-8 encoding is the byte slice. -/
abbrev Frame := String

/-- Identity of a `*Client`. -/
abbrev ClientPtr := Nat

/-- Buffered Go channel of frames (`chan []byte` made with a positive
capacity): pending values in FIFO order (head is the oldest), the fixed
capacity, and whether `close` has been called. -/
structure Chan where
  buf : List Frame
  cap : Nat
  closed : Bool
deriving DecidableEq, Repr

/-- Run-time panics that the channel operations of `Hub.Run` can raise. -/
inductive Panic where
  | sendOnClosedChannel
  | closeOfClosedChannel
deriving DecidableEq, Repr

/-- Queue at capacity: a non-blocking send cannot proceed. -/
def Chan.isFull (ch : Chan) : Bool := decide (ch.cap ≤ ch.buf.length)

/-- Non-blocking send, `select { case ch <- v: ... default: ... }`.
`Except.error` is the panic of a send on a closed channel, `some ch'` is the
channel after the send has proceeded, `none` means that the `default` branch is
taken (the buffer is full). -/
def Chan.trySend (ch : Chan) (v : Frame) : Except Panic (Option Chan) :=
  if ch.closed then .error Panic.sendOnClosedChannel
  else if ch.buf.length < ch.cap then .ok (some { ch with buf := ch.buf ++ [v] })
  else .ok none

/-- Go builtin `close(ch)`. -/
def Chan.close (ch : Chan) : Except Panic Chan :=
  if ch.closed then .error Panic.closeOfClosedChannel
  else .ok { ch with closed := true }

/-- Receive `<-ch` by the reader of the channel when a value is pending: the
oldest value leaves the buffer.  With nothing pending the channel is unchanged
(the reader blocks, or sees the closed channel). -/
def Chan.recv (ch : Chan) : Option Frame × Chan :=
  match ch.buf with
  | [] => (none, ch)
  | v :: rest => (some v, { ch with buf := rest })

/-! ## The hub -/

/-- State that `Hub.Run` reads and writes: the `Clients` map of the `Hub`
struct and the `send` channel of every client. -/
structure HubState where
  Clients : AList (fun _ : ClientPtr => Bool)
  send : ClientPtr → Chan

/-- Request received by the `select` of `Hub.Run`, one constructor per channel
of the `Hub` struct. -/
inductive Request where
  | Register (client : ClientPtr)
  | Unregister (client : ClientPtr)
  | Broadcast (message : Frame)
deriving DecidableEq, Repr

/-- `NewHub`: an empty `Clients` map.  The argument is the heap of `send`
channels of the clients that exist or will be created. -/
def NewHub (send : ClientPtr → Chan) : HubState :=
  { Clients := ∅, send := send }

/-- Body of the `for client := range h.Clients` loop of the `Broadcast` branch
for one client:
`select { case client.send <- message: default: close(client.send); delete(h.Clients, client) }`. -/
def broadcastTo (message : Frame) (h : HubState) (client : ClientPtr) : Except Panic HubState :=
  match (h.send client).trySend message with
  | .error p => .error p
  | .ok (some ch) => .ok { h with send := Function.update h.send client ch }
  | .ok none =>
    match (h.send client).close with
    | .error p => .error p
    | .ok ch =>
      .ok { Clients := h.Clients.erase client, send := Function.update h.send client ch }

/-- The `range` loop of the `Broadcast` branch over the keys in visiting order. -/
def broadcastLoop (message : Frame) : List ClientPtr → HubState → Except Panic HubState
  | [], h => .ok h
  | client :: rest, h =>
    match broadcastTo message h client with
    | .error p => .error p
    | .ok h' => broadcastLoop message rest h'

/-- One iteration of the `for { select { ... } }` loop of `Hub.Run`. -/
def RunStep (h : HubState) : Request → Except Panic HubState
  | .Register client =>
    .ok { h with Clients := h.Clients.insert client true }
  | .Unregister client =>
    match h.Clients.lookup client with
    | some _ =>
      match (h.send client).close with
      | .error p => .error p
      | .ok ch =>
        .ok { Clients := h.Clients.erase client, send := Function.update h.send client ch }
    | none => .ok h
  | .Broadcast message => broadcastLoop message h.Clients.keys h

/-- What happens around the hub: `Run` serves a request, or the write pump of a
client takes the next frame from the client's `send` channel. -/
inductive Event where
  | req (r : Request)
  | drain (client : ClientPtr)
deriving DecidableEq, Repr

/-- One event. -/
def step (h : HubState) : Event → Except Panic HubState
  | .req r => RunStep h r
  | .drain client => .ok { h with send := Function.update h.send client (h.send client).recv.2 }

/-- A finite run: the events in the order in which they happen. -/
def exec : HubState → List Event → Except Panic HubState
  | h, [] => .ok h
  | h, e :: es =>
    match step h e with
    | .error p => .error p
    | .ok h' => exec h' es

/-- Frame that the write pump of `client` takes from the queue at one event. -/
def taken (client : ClientPtr) (h : HubState) : Event → List Frame
  | .drain c => if c = client then (h.send client).recv.1.toList else []
  | .req _ => []

/-- Frames that the write pump of `client` has taken from the queue during a
run, in the order taken. -/
def drained (client : ClientPtr) : HubState → List Event → List Frame
  | _, [] => []
  | h, e :: es =>
    taken client h e ++
      match step h e with
      | .error _ => []
      | .ok h' => drained client h' es

/-- Message of a `Broadcast` request. -/
def broadcastOf : Event → List Frame
  | .req (.Broadcast m) => [m]
  | _ => []

/-- Messages of the `Broadcast` requests of a run, in order. -/
def broadcastsOf : List Event → List Frame
  | [] => []
  | e :: es => broadcastOf e ++ broadcastsOf es

/-- Client of a `Register` request. -/
def registerOf : Event → List ClientPtr
  | .req (.Register c) => [c]
  | _ => []

/-- Clients of the `Register` requests of a run, in order. -/
def registeredIn : List Event → List ClientPtr
  | [] => []
  | e :: es => registerOf e ++ registeredIn es

/-- The client is a key of `Clients` before the run and after every event of it. -/
def StaysIn (client : ClientPtr) : HubState → List Event → Bool
  | h, [] => (h.Clients.lookup client).isSome
  | h, e :: es =>
    (h.Clients.lookup client).isSome &&
      match step h e with
      | .error _ => false
      | .ok h' => StaysIn client h' es

/-- At a `Broadcast` request no registered client has a full queue. -/
def roomForBroadcast (h : HubState) : Event → Bool
  | .req (.Broadcast _) => h.Clients.keys.all (fun c => !(h.send c).isFull)
  | _ => true

/-- No `Broadcast` request of the run is served while a registered client has a
full queue. -/
def NoFullQueue : HubState → List Event → Bool
  | _, [] => true
  | h, e :: es =>
    roomForBroadcast h e &&
      match step h e with
      | .error _ => true
      | .ok h' => NoFullQueue h' es

/-- Membership change of one request when only `Register` (insert) and
`Unregister` (delete, nothing to delete for a client that is not a key) count. -/
def memberStep (m : AList (fun _ : ClientPtr => Bool)) : Event →
    AList (fun _ : ClientPtr => Bool)
  | .req (.Register c) => m.insert c true
  | .req (.Unregister c) => m.erase c
  | _ => m

/-- Membership obtained from the `Register` and `Unregister` requests of a run
alone, in their order. -/
def membershipOnly : AList (fun _ : ClientPtr => Bool) → List Event →
    AList (fun _ : ClientPtr => Bool)
  | m, [] => m
  | m, e :: es => membershipOnly (memberStep m e) es

/-! ## `encoding/json`

The part of `json.Marshal` that `BroadcastMessage` relies on, after the
documentation of the Go standard library: an object is written for a map with
its keys sorted, and for a struct with its fields in declaration order;
strings are quoted with the escapes of the encoder (HTML escaping is on for
`Marshal`); a value of a type that JSON cannot represent makes the whole call
fail. -/

/-- Go values that can stand behind the `interface{}` payload.  Pointers are
transparent for the encoder.  Floating-point numbers are left out. -/
inductive GoValue where
  /-- Value `nil` (interface, pointer, map or slice). -/
  | null
  | bool (b : Bool)
  | int (n : Int)
  | string (s : String)
  | slice (xs : List GoValue)
  /-- Value of type `map[string]T`; the keys of a Go map are distinct. -/
  | map (entries : List (String × GoValue))
  /-- Struct value: the JSON names of its exported fields with their values,
  in declaration order. -/
  | struct (fields : List (String × GoValue))
  /-- Value that the encoder rejects (a channel, a function, a complex number),
  with the text of the error, such as `json: unsupported type: chan int`. -/
  | invalid (err : String)

/-- Lower-case hexadecimal digit. -/
def hexDigit (n : Nat) : Char := "0123456789abcdef".toList.getD n '0'

/-- Escape of one character inside a JSON string, as the encoder writes it with
HTML escaping on (Go 1.22 and later write the short forms for backspace and
form feed). -/
def escapeChar (c : Char) : List Char :=
  let n := c.toNat
  if n = 34 then [Char.ofNat 92, Char.ofNat 34]
  else if n = 92 then [Char.ofNat 92, Char.ofNat 92]
  else if n = 8 then [Char.ofNat 92, 'b']
  else if n = 12 then [Char.ofNat 92, 'f']
  else if n = 10 then [Char.ofNat 92, 'n']
  else if n = 13 then [Char.ofNat 92, 'r']
  else if n = 9 then [Char.ofNat 92, 't']
  else if n < 32 ∨ n = 60 ∨ n = 62 ∨ n = 38 then
    [Char.ofNat 92, 'u', '0', '0', hexDigit (n / 16), hexDigit (n % 16)]
  else if n = 8232 ∨ n = 8233 then
    [Char.ofNat 92, 'u', '2', '0', '2', hexDigit (n % 16)]
  else [c]

/-- JSON string literal for a Go string. -/
def quote (s : String) : String :=
  String.mk ([Char.ofNat 34] ++ s.toList.flatMap escapeChar ++ [Char.ofNat 34])

/-- Strict lexicographic order on code points, which is the byte order of the
UTF-8 encodings that Go compares. -/
def lexLess : List Char → List Char → Bool
  | [], [] => false
  | [], _ :: _ => true
  | _ :: _, [] => false
  | a :: as, b :: bs =>
    if a.toNat < b.toNat then true
    else if b.toNat < a.toNat then false
    else lexLess as bs

/-- Order in which the encoder writes the keys of a map. -/
def keyLE (a b : String) : Bool := !(lexLess b.toList a.toList)

/-- Sort the members of a map by key. -/
def sortByKey {α : Type} (members : List (String × α)) : List (String × α) :=
  members.insertionSort (fun a b => keyLE a.1 b.1 = true)

/-- Write the members of an object in the given order; the first member whose
value fails to encode makes the object fail with that error. -/
def writeMembers : List (String × Except String String) → Except String (List String)
  | [] => .ok []
  | (_, .error e) :: _ => .error e
  | (k, .ok v) :: rest =>
    match writeMembers rest with
    | .error e => .error e
    | .ok out => .ok ((quote k ++ ":" ++ v) :: out)

/-- Join the members or elements between the two delimiters. -/
def bracket (left right : String) : Except String (List String) → Except String String
  | .error e => .error e
  | .ok parts => .ok (left ++ ",".intercalate parts ++ right)

mutual
/-- Model of `json.Marshal`: the JSON text, or the error text. -/
def json.Marshal : GoValue → Except String String
  | .null => .ok "null"
  | .bool b => .ok (if b then "true" else "false")
  | .int n => .ok (toString n)
  | .string s => .ok (quote s)
  | .slice xs => bracket "[" "]" (json.marshalElems xs)
  | .map entries => bracket "\x7b" "\x7d" (writeMembers (sortByKey (json.marshalValues entries)))
  | .struct fields => bracket "\x7b" "\x7d" (writeMembers (json.marshalValues fields))
  | .invalid err => .error err
/-- Elements of a slice, in order; the first failure ends the encoding. -/
def json.marshalElems : List GoValue → Except String (List String)
  | [] => .ok []
  | x :: xs =>
    match json.Marshal x with
    | .error e => .error e
    | .ok v =>
      match json.marshalElems xs with
      | .error e => .error e
      | .ok vs => .ok (v :: vs)
/-- Encoding of the value of every member. -/
def json.marshalValues : List (String × GoValue) → List (String × Except String String)
  | [] => []
  | (k, v) :: rest => (k, json.Marshal v) :: json.marshalValues rest
end

/-- The local variable `message` of `BroadcastMessage`: the map literal
`map[string]interface{}{"type": messageType, "payload": payload}`. -/
def message (messageType : String) (payload : GoValue) : GoValue :=
  GoValue.map [("type", GoValue.string messageType), ("payload", payload)]

/-- What a call of `BroadcastMessage` does besides returning: the lines it
writes with `log.Printf` and the frame it sends on `h.Broadcast`, if any. -/
structure Effects where
  logged : List String
  sent : Option Frame
deriving DecidableEq, Repr

/-- `Hub.BroadcastMessage`.  The Go method has no result, hence `Unit`; the
second component holds its effects. -/
def BroadcastMessage (messageType : String) (payload : GoValue) : Unit × Effects :=
  match json.Marshal (message messageType payload) with
  | .error err => ((), { logged := ["Error marshaling message: " ++ err], sent := none })
  | .ok data => ((), { logged := [], sent := some data })

/-- The hub once `Run` has served what a call of `BroadcastMessage` sent on
`h.Broadcast`; nothing is served when nothing was sent. -/
def hubAfterBroadcastMessage (h : HubState) (messageType : String) (payload : GoValue) :
    Except Panic HubState :=
  match (BroadcastMessage messageType payload).2.sent with
  | none => .ok h
  | some data => RunStep h (.Broadcast data)


/-! ## Auxiliary definitions for the statements -/

/-- Channel of a registered client after the loop body of the `Broadcast`
branch has run for it, when the channel was open: the frame is appended, or,
with the queue at capacity, the channel is closed. -/
def Chan.afterBroadcast (message : Frame) (ch : Chan) : Chan :=
  if ch.isFull then { ch with closed := true } else { ch with buf := ch.buf ++ [message] }

/-- Delete the listed keys from a map. -/
def eraseAll (ks : List ClientPtr) (m : AList (fun _ : ClientPtr => Bool)) :
    AList (fun _ : ClientPtr => Bool) :=
  ks.foldl (fun acc c => acc.erase c) m

/-- Heap in which every client has a fresh queue of the given capacity. -/
def freshQueues (cap : Nat) : ClientPtr → Chan :=
  fun _ => { buf := [], cap := cap, closed := false }

/-- Hub with the clients 1 and 2 registered, both with an empty queue of
capacity 2. -/
def idleHub : HubState :=
  { Clients := (AList.insert 2 true (AList.insert 1 true ∅)), send := freshQueues 2 }

/-- Hub with the clients 1 and 2 registered, queues of capacity 2, the queue
of client 2 holding two frames. -/
def busyHub : HubState :=
  { Clients := (AList.insert 2 true (AList.insert 1 true ∅)),
    send := Function.update (freshQueues 2) 2 { buf := ["x", "y"], cap := 2, closed := false } }

/-! ## The membership invariant in the words of the spec -/

/-- Admission of `client` after one more event, told from the history alone:
a `Register` request for the client admits it, an `Unregister` request for it
removes it, a `Broadcast` request served while its queue is full drops it, and
nothing else changes its admission. -/
def admitStep (client : ClientPtr) (h : HubState) (admitted : Bool) : Event → Bool
  | .req (.Register c) => if c = client then true else admitted
  | .req (.Unregister c) => if c = client then false else admitted
  | .req (.Broadcast _) => admitted && !(h.send client).isFull
  | .drain _ => admitted

/-- Whether, at the end of a run, `client` has been registered and has since
been neither unregistered nor dropped by a `Broadcast` that found its queue
full.  The second argument is the admission at the start of the run. -/
def admittedAfter (client : ClientPtr) : HubState → Bool → List Event → Bool
  | _, admitted, [] => admitted
  | h, admitted, e :: es =>
    match step h e with
    | .error _ => admitStep client h admitted e
    | .ok h' => admittedAfter client h' (admitStep client h admitted e) es

/-- Hub whose only client is `P`, with an empty open queue of capacity 2; the
other queues of the heap are those of the argument. -/
def soleClientHub (P : ClientPtr) (send : ClientPtr → Chan) : HubState :=
  { Clients := AList.singleton P true,
    send := Function.update send P { buf := [], cap := 2, closed := false } }

/-- Client of an `Unregister` request. -/
def unregisterOf : Event → List ClientPtr
  | .req (.Unregister c) => [c]
  | _ => []

/-- Clients of the `Unregister` requests of a run, in order. -/
def unregisteredIn : List Event → List ClientPtr
  | [] => []
  | e :: es => unregisterOf e ++ unregisteredIn es

/-- The write pumps of the listed clients take a frame each, one after the
other. -/
def drains (cs : List ClientPtr) : List Event := cs.map Event.drain

/-- The run of the write-failure scenario: the hub serves `Broadcast e₁`,
`Broadcast e₂`, `Unregister P₁` and `Broadcast e₃` in this order, with the
write pumps of the clients in `ds₁`, `ds₂` and `ds₃` taking frames in
between. -/
def writeFailureRun (P₁ : ClientPtr) (e₁ e₂ e₃ : Frame) (ds₁ ds₂ ds₃ : List ClientPtr) :
    List Event :=
  ([Event.req (.Broadcast e₁)] ++ drains ds₁ ++ [Event.req (.Broadcast e₂)] ++ drains ds₂)
    ++ [Event.req (.Unregister P₁)] ++ (drains ds₃ ++ [Event.req (.Broadcast e₃)])

/-! ## The HTTP handlers that feed the hub
(`internal/handler/file_handler.go`, `internal/handler/folder_handler.go`)

A handler is modelled by what it is given and what it does.  It is given the
results of the calls it makes on the request (form parsing, form values, JSON
decoding) and the outcome of the one service call it makes, as a function of
the arguments of that call; a Go result `(value, error)` is an `Except` with
the text of the error.  It answers an HTTP response and calls
`h.hub.BroadcastMessage` zero or more times. -/

/-- Entity `domain.UploadedFile`.  The time is kept as the RFC 3339 text that
`time.Time` marshals to. -/
structure UploadedFile where
  ID : String
  FolderID : String
  FolderName : String
  FileName : String
  FileSize : Int
  FileType : String
  FilePath : String
  UploadedAt : String
deriving DecidableEq, Repr

/-- Entity `domain.Folder`. -/
structure Folder where
  ID : String
  Name : String
  CreatedAt : String
  FileCount : Int
deriving DecidableEq, Repr

/-- The Go value behind a `*domain.UploadedFile`, with the names of the `json`
tags of the struct. -/
def UploadedFile.toGoValue (f : UploadedFile) : GoValue :=
  GoValue.struct [("id", .string f.ID), ("folder_id", .string f.FolderID),
    ("folder_name", .string f.FolderName), ("file_name", .string f.FileName),
    ("file_size", .int f.FileSize), ("file_type", .string f.FileType),
    ("file_path", .string f.FilePath), ("uploaded_at", .string f.UploadedAt)]

/-- The Go value behind a `*domain.Folder`, with the names of the `json` tags
of the struct. -/
def Folder.toGoValue (f : Folder) : GoValue :=
  GoValue.struct [("id", .string f.ID), ("name", .string f.Name),
    ("created_at", .string f.CreatedAt), ("file_count", .int f.FileCount)]

/-- What the handlers and the file service read of a `multipart.FileHeader`. -/
structure FileHeader where
  Filename : String
  Size : Int
deriving DecidableEq, Repr

/-- What `FileHandler.UploadFile` reads of the request: the error of
`r.ParseMultipartForm`, if any, the form values `folder_id` and `folder_name`
(empty when absent), and the result of `r.FormFile("file")`. -/
structure UploadForm where
  parseError : Option String
  folder_id : String
  folder_name : String
  file : Except String FileHeader

/-- HTTP response written by a handler. -/
structure Response where
  status : Nat
  contentType : String
  body : String
deriving DecidableEq, Repr

/-- What a handler has done when it returns: the response, and the calls of
`h.hub.BroadcastMessage` it made, each with its kind and payload, in order. -/
structure Served where
  response : Response
  broadcasts : List (String × GoValue)

/-- Library call `http.Error(w, msg, code)` followed by `return`. -/
def httpError (msg : String) (code : Nat) : Served :=
  { response := { status := code, contentType := "text/plain; charset=utf-8",
                  body := msg ++ "\n" },
    broadcasts := [] }

/-- Body written by `json.NewEncoder(w).Encode(v)`: the JSON text and a new
line; nothing is written when the value does not encode. -/
def encodeBody (v : GoValue) : String :=
  match json.Marshal v with
  | .ok text => text ++ "\n"
  | .error _ => ""

/-- `FileHandler.UploadFile`.  The first argument is the outcome of
`h.fileService.UploadFile(handler, folderID, folderName)`. -/
def FileHandler.UploadFile
    (fileService_UploadFile : FileHeader → String → String → Except String UploadedFile)
    (r : UploadForm) : Served :=
  match r.parseError with
  | some _ => httpError "Unable to parse form" 400
  | none =>
    let folderID := r.folder_id
    let folderName := r.folder_name
    if folderID = "" ∨ folderName = "" then
      httpError "Folder ID and name are required" 400
    else
      match r.file with
      | .error _ => httpError "Unable to get file" 400
      | .ok handler =>
        match fileService_UploadFile handler folderID folderName with
        | .error err => httpError err 500
        | .ok uploadedFile =>
          { broadcasts := [("new_file", uploadedFile.toGoValue)],
            response := { status := 200, contentType := "application/json",
                          body := encodeBody uploadedFile.toGoValue } }

/-- `FileHandler.DeleteFile`.  The first argument is the outcome of
`h.fileService.DeleteFile(fileID)`: the text of the error, or `none` for `nil`;
the second is the `id` variable of the route. -/
def FileHandler.DeleteFile (fileService_DeleteFile : String → Option String)
    (fileID : String) : Served :=
  match fileService_DeleteFile fileID with
  | some err => httpError err 500
  | none =>
    { broadcasts := [("file_deleted", GoValue.map [("id", GoValue.string fileID)])],
      response := { status := 204, contentType := "", body := "" } }

/-- `FolderHandler.CreateFolder`.  The first argument is the outcome of
`h.folderService.CreateFolder(req.Name)`; the second is the result of decoding
the JSON body into `req`: the error, or the field `Name` (empty when the body
has no `name`). -/
def FolderHandler.CreateFolder (folderService_CreateFolder : String → Except String Folder)
    (decoded : Except String String) : Served :=
  match decoded with
  | .error _ => httpError "Invalid request" 400
  | .ok name =>
    if name = "" then httpError "Folder name is required" 400
    else
      match folderService_CreateFolder name with
      | .error err => httpError err 500
      | .ok folder =>
        { broadcasts := [("folder_created", folder.toGoValue)],
          response := { status := 200, contentType := "application/json",
                        body := encodeBody folder.toGoValue } }

/-- Upload form with everything the handler asks for. -/
def sampleForm : UploadForm :=
  { parseError := none, folder_id := "f1", folder_name := "Invoices",
    file := .ok { Filename := "a.pdf", Size := 10 } }

/-- File entity as the service returns it for `sampleForm`. -/
def sampleFile : UploadedFile :=
  { ID := "u1", FolderID := "f1", FolderName := "Invoices", FileName := "a.pdf",
    FileSize := 10, FileType := "pdf", FilePath := "uploads/f1/u1.pdf",
    UploadedAt := "0001-01-01T00:00:00Z" }

/-- Folder entity as the service returns it. -/
def sampleFolder : Folder :=
  { ID := "f1", Name := "Invoices", CreatedAt := "2024-01-01T00:00:00Z", FileCount := 0 }

/-! ## The mutex of the hub

`Hub.Run` once more, this time recording, in program order, what it does to the
mutex `h.mu`, to the `Clients` map and to the send channels.  The state it
computes is that of `RunStep` (`RunTraced_state`). -/

/-- Operation of `Hub.Run` on the mutex, on the `Clients` map or on a send
channel, or a log line. -/
inductive Op where
  /-- Call `h.mu.Lock()`. -/
  | Lock
  /-- Call `h.mu.Unlock()`. -/
  | Unlock
  /-- Call `h.mu.RLock()`. -/
  | RLock
  /-- Call `h.mu.RUnlock()`. -/
  | RUnlock
  /-- Assignment `h.Clients[client] = true`. -/
  | mapSet (client : ClientPtr)
  /-- Call `delete(h.Clients, client)`. -/
  | mapDelete (client : ClientPtr)
  /-- Read of the map: the lookup `h.Clients[client]`, or the key handed out by
  `range h.Clients`. -/
  | mapRead (client : ClientPtr)
  /-- Send `client.send <- message` that the `select` commits to. -/
  | chanSend (client : ClientPtr)
  /-- Call `close(client.send)`. -/
  | chanClose (client : ClientPtr)
  /-- Call `log.Println`. -/
  | logPrintln (line : String)
deriving DecidableEq, Repr

/-- How the `sync.RWMutex` is held by the goroutine of `Run`. -/
inductive LockMode where
  | free
  | shared
  | exclusive
deriving DecidableEq, Repr

/-- Mode of the mutex after an operation. -/
def LockMode.after : LockMode → Op → LockMode
  | _, .Lock => .exclusive
  | _, .RLock => .shared
  | _, .Unlock => .free
  | _, .RUnlock => .free
  | mode, _ => mode

/-- The operation writes the `Clients` map. -/
def Op.writesClients : Op → Bool
  | .mapSet _ => true
  | .mapDelete _ => true
  | _ => false

/-- The writes of the `Clients` map that a sequence of operations performs
while the mutex is not held in exclusive mode, starting in the given mode. -/
def unprotectedWrites : LockMode → List Op → List Op
  | _, [] => []
  | mode, op :: ops =>
    (if op.writesClients ∧ mode ≠ LockMode.exclusive then [op] else []) ++
      unprotectedWrites (mode.after op) ops

/-- Loop body of the `Broadcast` branch for one client, with its operations. -/
def broadcastToTraced (message : Frame) (h : HubState) (client : ClientPtr) :
    List Op × Except Panic HubState :=
  match (h.send client).trySend message with
  | .error p => ([.mapRead client, .chanSend client], .error p)
  | .ok (some ch) =>
    ([.mapRead client, .chanSend client],
      .ok { h with send := Function.update h.send client ch })
  | .ok none =>
    match (h.send client).close with
    | .error p => ([.mapRead client, .chanClose client], .error p)
    | .ok ch =>
      ([.mapRead client, .chanClose client, .mapDelete client],
        .ok { Clients := h.Clients.erase client, send := Function.update h.send client ch })

/-- The `range` loop of the `Broadcast` branch, with its operations; a panic
ends the goroutine, so that `h.mu.RUnlock()` is reached only after a loop
without panic. -/
def broadcastLoopTraced (message : Frame) :
    List ClientPtr → HubState → List Op × Except Panic HubState
  | [], h => ([.RUnlock], .ok h)
  | client :: rest, h =>
    match broadcastToTraced message h client with
    | (ops, .error p) => (ops, .error p)
    | (ops, .ok h') =>
      let (ops', r) := broadcastLoopTraced message rest h'
      (ops ++ ops', r)

/-- One iteration of the loop of `Hub.Run`, with its operations in program
order. -/
def RunTraced (h : HubState) : Request → List Op × Except Panic HubState
  | .Register client =>
    ([.Lock, .mapSet client, .Unlock, .logPrintln "Client connected"],
      .ok { h with Clients := h.Clients.insert client true })
  | .Unregister client =>
    match h.Clients.lookup client with
    | some _ =>
      match (h.send client).close with
      | .error p => ([.Lock, .mapRead client, .mapDelete client, .chanClose client], .error p)
      | .ok ch =>
        ([.Lock, .mapRead client, .mapDelete client, .chanClose client,
            .logPrintln "Client disconnected", .Unlock],
          .ok { Clients := h.Clients.erase client, send := Function.update h.send client ch })
    | none => ([.Lock, .mapRead client, .Unlock], .ok h)
  | .Broadcast message =>
    let (ops, r) := broadcastLoopTraced message h.Clients.keys h
    (.RLock :: ops, r)

/-! ## Errors, strings and paths of the Go library -/

/-- Go `error` value, by where it was made: by `errors.New` in the code of this
repository, or by a call into a library or the operating system.  Two values of
different origins are different errors also when their texts agree. -/
inductive GoError where
  | errorsNew (text : String)
  | external (text : String)
deriving DecidableEq, Repr

/-- Method `Error()`. -/
def GoError.Error : GoError → String
  | .errorsNew text => text
  | .external text => text

/-- Scan of `filepath.Ext`, from the last character backwards: the characters
seen so far are kept in `seen`; a path separator ends the scan without an
extension, a dot ends it with the extension. -/
def extScan : List Char → List Char → List Char
  | [], _ => []
  | c :: before, seen =>
    if c = '/' then []
    else if c = '.' then '.' :: seen
    else extScan before (c :: seen)

/-- Library function `filepath.Ext` (with `/` as the path separator): the
suffix beginning at the final dot in the final element of the path, empty if
there is no such dot. -/
def filepath.Ext (path : String) : String := String.mk (extScan path.toList.reverse [])

/-- Library function `unicode.ToLower`.  On ASCII it moves the letters `A` to
`Z` to `a` to `z` and keeps every other character; above ASCII it is
`unicode.To(unicode.LowerCase, r)`, the case table of the library, which is
the first argument. -/
def unicode.ToLower (table : Char → Char) (r : Char) : Char :=
  if r.toNat ≤ 127 then
    if 65 ≤ r.toNat ∧ r.toNat ≤ 90 then Char.ofNat (r.toNat + 32) else r
  else table r

/-- Library function `strings.ToLower`, which maps `unicode.ToLower` over the
characters; the case table above ASCII is the first argument. -/
def strings.ToLower (table : Char → Char) (s : String) : String :=
  String.mk (s.toList.map (unicode.ToLower table))

/-- Call `strings.TrimPrefix(s, ".")`. -/
def strings.TrimDot (s : String) : String :=
  match s.toList with
  | '.' :: rest => String.mk rest
  | _ => s

/-- Pieces of a text between the occurrences of a separator character. -/
def splitChars (sep : Char) : List Char → List (List Char)
  | [] => [[]]
  | c :: cs =>
    if c = sep then [] :: splitChars sep cs
    else
      match splitChars sep cs with
      | [] => [[c]]
      | piece :: pieces => (c :: piece) :: pieces

/-- Library function `strings.Split` for a separator of one character. -/
def strings.Split (s : String) (sep : Char) : List String :=
  (splitChars sep s.toList).map String.mk

/-! ## The in-memory repositories (`internal/repository/memory`)

The Go maps hold pointers to entities.  A repository is modelled by the map
from the key to the entity behind the pointer; `UpdateFolderFileCount`, which
writes through the pointer, replaces the entity under its key.  The mutexes of
the repositories bracket each method and do not change what it computes. -/

/-- The struct `memory.FileRepository`. -/
structure FileRepository where
  files : AList (fun _ : String => UploadedFile)

/-- `NewFileRepository`. -/
def NewFileRepository : FileRepository := { files := ∅ }

/-- `FileRepository.SaveFile`: the error, always `nil`, and the repository
afterwards. -/
def FileRepository.SaveFile (r : FileRepository) (file : UploadedFile) :
    Option GoError × FileRepository :=
  (none, { files := r.files.insert file.ID file })

/-- `FileRepository.GetFile`. -/
def FileRepository.GetFile (r : FileRepository) (id : String) : Except GoError UploadedFile :=
  match r.files.lookup id with
  | none => .error (.errorsNew "file not found")
  | some file => .ok file

/-- `FileRepository.GetFilesByFolder`: the files and the error, always `nil`.
The order of the files is that of the iteration over the map. -/
def FileRepository.GetFilesByFolder (r : FileRepository) (folderID : String) :
    List UploadedFile × Option GoError :=
  ((r.files.entries.map (fun entry => entry.2)).filter (fun file => file.FolderID = folderID),
    none)

/-- `FileRepository.DeleteFile`. -/
def FileRepository.DeleteFile (r : FileRepository) (id : String) :
    Option GoError × FileRepository :=
  match r.files.lookup id with
  | none => (some (.errorsNew "file not found"), r)
  | some _ => (none, { files := r.files.erase id })

/-- The struct `memory.FolderRepository`. -/
structure FolderRepository where
  folders : AList (fun _ : String => Folder)

/-- `NewFolderRepository`. -/
def NewFolderRepository : FolderRepository := { folders := ∅ }

/-- `FolderRepository.CreateFolder`. -/
def FolderRepository.CreateFolder (r : FolderRepository) (folder : Folder) :
    Option GoError × FolderRepository :=
  (none, { folders := r.folders.insert folder.ID folder })

/-- `FolderRepository.GetFolder`. -/
def FolderRepository.GetFolder (r : FolderRepository) (id : String) : Except GoError Folder :=
  match r.folders.lookup id with
  | none => .error (.errorsNew "folder not found")
  | some folder => .ok folder

/-- `FolderRepository.UpdateFolderFileCount`. -/
def FolderRepository.UpdateFolderFileCount (r : FolderRepository) (folderID : String)
    (count : Int) : Option GoError × FolderRepository :=
  match r.folders.lookup folderID with
  | none => (some (.errorsNew "folder not found"), r)
  | some folder => (none, { folders := r.folders.insert folderID { folder with FileCount := count } })

/-- Entity `domain.Admin`. -/
structure Admin where
  Username : String
  PasswordHash : String
deriving DecidableEq, Repr

/-- The struct `memory.AdminRepository`. -/
structure AdminRepository where
  admin : Admin

/-- `NewAdminRepository`. -/
def NewAdminRepository (username passwordHash : String) : AdminRepository :=
  { admin := { Username := username, PasswordHash := passwordHash } }

/-- `AdminRepository.GetAdminByUsername`. -/
def AdminRepository.GetAdminByUsername (r : AdminRepository) (username : String) :
    Except GoError Admin :=
  if r.admin.Username = username then .ok r.admin
  else .error (.errorsNew "admin not found")

/-! ## The file service (`internal/usecase/file_service.go`) -/

/-- Answer of `os.Remove`. -/
inductive RemoveResult where
  /-- The file is removed, the error is `nil`. -/
  | removed
  /-- An error for which `os.IsNotExist` holds. -/
  | notExist (text : String)
  /-- Any other error. -/
  | failed (text : String)
deriving DecidableEq, Repr

/-- What the operating system and the libraries answer to the calls of the
file service during one call of a service method; an `Option String` is the
text of the error, `none` for `nil`. -/
structure World where
  /-- Case table of `unicode.ToLower` above ASCII:
  `unicode.To(unicode.LowerCase, r)`. -/
  toLower : Char → Char
  /-- Library function `filepath.Join` of two elements. -/
  join : String → String → String
  /-- Call `fileHeader.Open()`. -/
  openHeader : Option String
  /-- Call `os.MkdirAll(path, 0755)`. -/
  mkdirAll : String → Option String
  /-- Call `uuid.New().String()`. -/
  newUUID : String
  /-- Call `os.Create(path)`. -/
  create : String → Option String
  /-- Call `io.Copy(dst, file)`. -/
  copy : Option String
  /-- Call `os.Remove(path)`. -/
  remove : String → RemoveResult

/-- The struct `FileService`, with the in-memory repositories behind its two
repository fields. -/
structure FileService where
  fileRepo : FileRepository
  folderRepo : FolderRepository
  uploadPath : String
  maxFileSize : Int
  allowedExtensions : List String

/-- `FileService.isAllowedExtension`. -/
def FileService.isAllowedExtension (s : FileService) (ext : String) : Bool :=
  s.allowedExtensions.any (fun allowed => ext = allowed)

/-- The variable `ext` of `UploadFile`:
`strings.TrimPrefix(strings.ToLower(filepath.Ext(fileHeader.Filename)), ".")`. -/
def uploadExt (w : World) (fileName : String) : String :=
  strings.TrimDot (strings.ToLower w.toLower (filepath.Ext fileName))

/-- Zero value of `time.Time` in RFC 3339 text. -/
def zeroTime : String := "0001-01-01T00:00:00Z"

/-- `FileService.UploadFile`: the result and the service afterwards. -/
def FileService.UploadFile (s : FileService) (w : World) (fileHeader : FileHeader)
    (folderID folderName : String) : Except GoError UploadedFile × FileService :=
  if fileHeader.Size > s.maxFileSize then
    (.error (.errorsNew "file size exceeds maximum allowed size"), s)
  else
    let ext := uploadExt w fileHeader.Filename
    if !s.isAllowedExtension ext then
      (.error (.errorsNew "file type not allowed"), s)
    else
      match w.openHeader with
      | some err => (.error (.external err), s)
      | none =>
        let folderPath := w.join s.uploadPath folderID
        match w.mkdirAll folderPath with
        | some err => (.error (.external err), s)
        | none =>
          let fileID := w.newUUID
          let fileName := fileHeader.Filename
          let filePath := w.join folderPath (fileID ++ filepath.Ext fileName)
          match w.create filePath with
          | some err => (.error (.external err), s)
          | none =>
            match w.copy with
            | some err => (.error (.external err), s)
            | none =>
              let uploadedFile : UploadedFile :=
                { ID := fileID, FolderID := folderID, FolderName := folderName,
                  FileName := fileName, FileSize := fileHeader.Size, FileType := ext,
                  FilePath := filePath, UploadedAt := zeroTime }
              match s.fileRepo.SaveFile uploadedFile with
              | (some err, fileRepo) => (.error err, { s with fileRepo := fileRepo })
              | (none, fileRepo) =>
                let files := (fileRepo.GetFilesByFolder folderID).1
                let folderRepo := (s.folderRepo.UpdateFolderFileCount folderID files.length).2
                (.ok uploadedFile, { s with fileRepo := fileRepo, folderRepo := folderRepo })

/-- `FileService.DeleteFile`: the error and the service afterwards. -/
def FileService.DeleteFile (s : FileService) (w : World) (fileID : String) :
    Option GoError × FileService :=
  match s.fileRepo.GetFile fileID with
  | .error err => (some err, s)
  | .ok file =>
    match w.remove file.FilePath with
    | .failed err => (some (.external err), s)
    | _ =>
      match s.fileRepo.DeleteFile fileID with
      | (some err, fileRepo) => (some err, { s with fileRepo := fileRepo })
      | (none, fileRepo) =>
        let files := (fileRepo.GetFilesByFolder file.FolderID).1
        let folderRepo := (s.folderRepo.UpdateFolderFileCount file.FolderID files.length).2
        (none, { s with fileRepo := fileRepo, folderRepo := folderRepo })

/-! ## Authentication (`internal/usecase/auth_service.go`,
`internal/middleware/auth_middleware.go`) -/

/-- What the `bcrypt` and `jwt` libraries and the clock answer to the calls of
the auth service. -/
structure AuthLib where
  /-- Call `bcrypt.CompareHashAndPassword(hash, password)`: the text of the
  error, `none` for `nil`. -/
  compareHashAndPassword : String → String → Option String
  /-- Call `time.Now()`, in Unix seconds. -/
  now : Int
  /-- Signing of the token with the claims `username` and `exp` under the
  secret: `token.SignedString`. -/
  signedString : String → Int → String → Except String String

/-- The struct `AuthService`, with the in-memory admin repository. -/
structure AuthService where
  adminRepo : AdminRepository
  jwtSecret : String

/-- `AuthService.Login`: the token and the error. -/
def AuthService.Login (s : AuthService) (lib : AuthLib) (username password : String) :
    String × Option GoError :=
  match s.adminRepo.GetAdminByUsername username with
  | .error _ => ("", some (.errorsNew "invalid credentials"))
  | .ok admin =>
    match lib.compareHashAndPassword admin.PasswordHash password with
    | some _ => ("", some (.errorsNew "invalid credentials"))
    | none =>
      match lib.signedString admin.Username (lib.now + 24 * 3600) s.jwtSecret with
      | .error err => ("", some (.external err))
      | .ok tokenString => (tokenString, none)

/-- Token that `jwt.Parse` hands back. -/
structure JwtToken where
  /-- Field `Claims` when its dynamic type is `jwt.MapClaims` (the claims of
  the token by name), `none` for any other type. -/
  mapClaims : Option (List (String × GoValue))
  /-- Field `Valid`. -/
  Valid : Bool

/-- What the `jwt` library answers to the call of `ValidateToken`. -/
structure JwtLib where
  /-- Call `jwt.Parse(tokenString, keyFunc)`.  The key function is given
  whether the signing method of the token is a `*jwt.SigningMethodHMAC`, and
  answers with the key or with an error. -/
  Parse : String → (Bool → Except GoError String) → Except GoError JwtToken

/-- How a call of `ValidateToken` ends: it returns the username with a `nil`
error, it returns the empty string with an error, or it panics. -/
inductive Validation where
  | username (username : String)
  | failed (err : GoError)
  | panicked (text : String)
deriving DecidableEq, Repr

/-- Index expression `claims[key]` on a `jwt.MapClaims`: the value stored under
the key, `nil` when the key is absent. -/
def claimAt (claims : List (String × GoValue)) (key : String) : GoValue :=
  match claims.find? (fun entry => entry.1 = key) with
  | some entry => entry.2
  | none => .null

/-- The function literal that `ValidateToken` passes to `jwt.Parse`. -/
def AuthService.keyFunc (s : AuthService) (isHMAC : Bool) : Except GoError String :=
  if !isHMAC then .error (.errorsNew "invalid signing method") else .ok s.jwtSecret

/-- `AuthService.ValidateToken`.  The type assertion `claims["username"].(string)`
has no second result, so it panics when the claim is not a string. -/
def AuthService.ValidateToken (s : AuthService) (jwt : JwtLib) (tokenString : String) :
    Validation :=
  match jwt.Parse tokenString s.keyFunc with
  | .error err => .failed err
  | .ok token =>
    match token.mapClaims, token.Valid with
    | some claims, true =>
      match claimAt claims "username" with
      | .string username => .username username
      | _ => .panicked "interface conversion: interface \x7b\x7d is not string"
    | _, _ => .failed (.errorsNew "invalid token")

/-- What the handler returned by `Authenticate` does with a request: it answers
itself, it calls the wrapped handler with the username in the context, or it
panics before doing either (the server then closes the connection without a
response). -/
inductive Gate where
  | answered (response : Response)
  | next (username : String)
  | panicked (text : String)
deriving DecidableEq, Repr

/-- The handler returned by `AuthMiddleware.Authenticate`.  The first argument
is the field `m.authService`, the last the value of the `Authorization` header
(empty when absent). -/
def AuthMiddleware.Authenticate (authService : AuthService) (jwt : JwtLib)
    (authHeader : String) : Gate :=
  if authHeader = "" then
    .answered (httpError "Authorization header required" 401).response
  else
    let parts := strings.Split authHeader ' '
    if parts.length ≠ 2 ∨ parts.getD 0 "" ≠ "Bearer" then
      .answered (httpError "Invalid authorization header" 401).response
    else
      let token := parts.getD 1 ""
      match authService.ValidateToken jwt token with
      | .failed _ => .answered (httpError "Invalid token" 401).response
      | .username username => .next username
      | .panicked text => .panicked text

/-- World in which every call succeeds, with a case table that maps every
character above ASCII to itself. -/
def calmWorld : World :=
  { toLower := fun r => r, join := fun a b => a ++ "/" ++ b, openHeader := none,
    mkdirAll := fun _ => none, newUUID := "u1", create := fun _ => none, copy := none,
    remove := fun _ => RemoveResult.removed }

/-- File service with the folder `f1` and no file, a size limit of 100 bytes
and the extensions `pdf` and `png`. -/
def sampleService : FileService :=
  { fileRepo := NewFileRepository,
    folderRepo := { folders := AList.insert "f1" sampleFolder ∅ },
    uploadPath := "uploads", maxFileSize := 100, allowedExtensions := ["pdf", "png"] }

/-- Auth service with the admin `root`. -/
def sampleAuth : AuthService :=
  { adminRepo := NewAdminRepository "root" "hash-of-secret", jwtSecret := "k" }

/-- Library in which the only password matching a hash is `secret`. -/
def sampleAuthLib : AuthLib :=
  { compareHashAndPassword := fun _ password =>
      if password = "secret" then none
      else some "crypto/bcrypt: hashedPassword is not the hash of the given password",
    now := 0,
    signedString := fun username _ _ => .ok ("token-of-" ++ username) }

/-- Library that knows three token strings signed with the secret `k`: `good`
carries the claims `username` and `exp`, `no-name` only the claim `exp`, and
`odd-name` a `username` that is a number; every other string fails to parse. -/
def sampleJwt : JwtLib :=
  { Parse := fun tokenString keyFunc =>
      match keyFunc true with
      | .error err => .error err
      | .ok key =>
        if key ≠ "k" then .error (.external "signature is invalid")
        else if tokenString = "good" then
          .ok { mapClaims := some [("username", .string "root"), ("exp", .int 86400)],
                Valid := true }
        else if tokenString = "no-name" then
          .ok { mapClaims := some [("exp", .int 86400)], Valid := true }
        else if tokenString = "odd-name" then
          .ok { mapClaims := some [("username", .int 7), ("exp", .int 86400)],
                Valid := true }
        else .error (.external "token is malformed") }

/-- Where a call of `UploadFile` stands once the file is on disk and the entity
is built: before one of its three repository calls (with `len(files)` read by
the second for the third), or returned. -/
inductive UploadPoint where
  | atSaveFile
  | atGetFilesByFolder
  | atUpdateFolderFileCount (files : Nat)
  | returned (result : Except GoError UploadedFile)
deriving DecidableEq, Repr

/-- A call of `UploadFile` in progress: its parameter `folderID`, its entity
and the point at which it stands. -/
structure UploadCall where
  folderID : String
  uploadedFile : UploadedFile
  point : UploadPoint
deriving DecidableEq, Repr

/-- The next repository call of a call of `UploadFile`, on the service as the
other calls have left it. -/
def UploadCall.step (call : UploadCall) (s : FileService) : UploadCall × FileService :=
  match call.point with
  | .atSaveFile =>
    match s.fileRepo.SaveFile call.uploadedFile with
    | (some err, fileRepo) =>
      ({ call with point := .returned (.error err) }, { s with fileRepo := fileRepo })
    | (none, fileRepo) =>
      ({ call with point := .atGetFilesByFolder }, { s with fileRepo := fileRepo })
  | .atGetFilesByFolder =>
    let files := (s.fileRepo.GetFilesByFolder call.folderID).1
    ({ call with point := .atUpdateFolderFileCount files.length }, s)
  | .atUpdateFolderFileCount files =>
    let folderRepo := (s.folderRepo.UpdateFolderFileCount call.folderID files).2
    ({ call with point := .returned (.ok call.uploadedFile) },
      { s with folderRepo := folderRepo })
  | .returned _ => (call, s)

/-- Which of two requests makes the next repository call. -/
inductive Turn where
  | first
  | second
deriving DecidableEq, Repr

/-- Two calls of `UploadFile` on one service, their repository calls taken in
the order of the schedule. -/
def overlap : List Turn → FileService → UploadCall → UploadCall →
    FileService × UploadCall × UploadCall
  | [], s, a, b => (s, a, b)
  | .first :: schedule, s, a, b => overlap schedule (a.step s).2 (a.step s).1 b
  | .second :: schedule, s, a, b => overlap schedule (b.step s).2 a (b.step s).1

theorem lookup_eraseAll (ks : List ClientPtr) (m : AList (fun _ : ClientPtr => Bool))
    (c : ClientPtr) :
    (eraseAll ks m).lookup c = if c ∈ ks then none else m.lookup c := by
  induction ks generalizing m with
  | nil => simp [eraseAll]
  | cons k ks ih =>
    have hstep : eraseAll (k :: ks) m = eraseAll ks (m.erase k) := rfl
    rw [hstep, ih]
    by_cases hck : c = k
    · subst hck
      simp [AList.lookup_erase]
    · by_cases hmem : c ∈ ks
      · simp [hmem]
      · simp [hmem, hck, AList.lookup_erase_ne hck]

theorem erase_of_lookup_none (m : AList (fun _ : ClientPtr => Bool)) (c : ClientPtr)
    (hc : m.lookup c = none) : m.erase c = m := by
  apply AList.ext
  have hnot : c ∉ m.entries.keys := by
    have := AList.lookup_eq_none.mp hc
    simpa [AList.mem_keys, AList.keys] using this
  simp [AList.erase, List.kerase_of_not_mem_keys hnot]

theorem lookup_isSome_iff_mem_keys (m : AList (fun _ : ClientPtr => Bool)) (c : ClientPtr) :
    (m.lookup c).isSome = true ↔ c ∈ m.keys := by
  rw [AList.lookup_isSome, AList.mem_keys]

/-! ## Lemmas on the broadcast loop -/

theorem broadcastTo_open (message : Frame) (h : HubState) (c : ClientPtr)
    (hopen : (h.send c).closed = false) :
    broadcastTo message h c =
      .ok { Clients := if (h.send c).isFull then h.Clients.erase c else h.Clients,
            send := Function.update h.send c ((h.send c).afterBroadcast message) } := by
  unfold broadcastTo Chan.trySend Chan.close Chan.afterBroadcast Chan.isFull
  by_cases hlt : (h.send c).buf.length < (h.send c).cap
  · have hnle : ¬ (h.send c).cap ≤ (h.send c).buf.length := by omega
    simp [hopen, hlt, hnle]
  · have hle : (h.send c).cap ≤ (h.send c).buf.length := by omega
    simp [hopen, hlt, hle]

theorem broadcastTo_closed (message : Frame) (h : HubState) (c : ClientPtr)
    (hclosed : (h.send c).closed = true) :
    broadcastTo message h c = .error Panic.sendOnClosedChannel := by
  simp [broadcastTo, Chan.trySend, hclosed]

/-- With every visited queue open, the loop appends the frame to the queues
that have room and closes and deletes the others. -/
theorem broadcastLoop_ok (message : Frame) (l : List ClientPtr) (h : HubState)
    (hnodup : l.Nodup) (hopen : ∀ c ∈ l, (h.send c).closed = false) :
    broadcastLoop message l h =
      .ok { Clients := eraseAll (l.filter (fun c => (h.send c).isFull)) h.Clients,
            send := fun c => if c ∈ l then (h.send c).afterBroadcast message else h.send c } := by
  induction l generalizing h with
  | nil => simp [broadcastLoop, eraseAll]
  | cons a t ih =>
    have hat : a ∉ t := (List.nodup_cons.mp hnodup).1
    have ht : t.Nodup := (List.nodup_cons.mp hnodup).2
    have ha : (h.send a).closed = false := hopen a (List.mem_cons_self a t)
    simp only [broadcastLoop, broadcastTo_open message h a ha]
    have hsame : ∀ c ∈ t, Function.update h.send a ((h.send a).afterBroadcast message) c = h.send c := by
      intro c hc
      have hne : c ≠ a := fun e => hat (e ▸ hc)
      simp [Function.update_noteq hne]
    rw [ih _ ht (by
      intro c hc
      simp only [hsame c hc]
      exact hopen c (List.mem_cons_of_mem a hc))]
    have hfilter : t.filter (fun c => (Function.update h.send a ((h.send a).afterBroadcast message) c).isFull)
        = t.filter (fun c => (h.send c).isFull) := by
      apply List.filter_congr
      intro c hc
      simp only [hsame c hc]
    congr 1
    simp only [hfilter]
    congr 1
    · by_cases hfull : (h.send a).isFull = true
      · simp [hfull, List.filter_cons, eraseAll]
      · simp [hfull, List.filter_cons]
    · funext c
      by_cases hca : c = a
      · subst hca
        simp [hat]
      · by_cases hct : c ∈ t
        · simp [hct, hca, Function.update_noteq hca]
        · simp [hct, hca, Function.update_noteq hca]

/-- A closed queue among the visited clients makes the loop panic. -/
theorem broadcastLoop_panic (message : Frame) (l : List ClientPtr) (h : HubState)
    (hnodup : l.Nodup) (hclosed : ∃ c ∈ l, (h.send c).closed = true) :
    broadcastLoop message l h = .error Panic.sendOnClosedChannel := by
  induction l generalizing h with
  | nil => simp at hclosed
  | cons a t ih =>
    have hat : a ∉ t := (List.nodup_cons.mp hnodup).1
    have ht : t.Nodup := (List.nodup_cons.mp hnodup).2
    by_cases ha : (h.send a).closed = true
    · simp [broadcastLoop, broadcastTo_closed message h a ha]
    · have ha' : (h.send a).closed = false := by simpa using ha
      simp only [broadcastLoop, broadcastTo_open message h a ha']
      apply ih _ ht
      obtain ⟨c, hc, hcc⟩ := hclosed
      rcases List.mem_cons.mp hc with hca | hct
      · subst hca
        exact absurd hcc ha
      · refine ⟨c, hct, ?_⟩
        have hne : c ≠ a := fun e => hat (e ▸ hct)
        simpa [Function.update_noteq hne] using hcc

theorem broadcastLoop_ok_open (message : Frame) (l : List ClientPtr) (h h' : HubState)
    (hnodup : l.Nodup) (hrun : broadcastLoop message l h = .ok h') :
    ∀ c ∈ l, (h.send c).closed = false := by
  intro c hc
  by_contra hcl
  have hcl' : (h.send c).closed = true := by simpa using hcl
  rw [broadcastLoop_panic message l h hnodup ⟨c, hc, hcl'⟩] at hrun
  cases hrun


/-- The outcome of the loop does not depend on the order in which the keys are
visited: two visiting orders panic alike, or end with the same queues and the
same members. -/
theorem broadcastLoop_perm (message : Frame) (l₁ l₂ : List ClientPtr) (h : HubState)
    (hperm : l₁.Perm l₂) (hnodup : l₁.Nodup) :
    (broadcastLoop message l₁ h = .error Panic.sendOnClosedChannel ∧
      broadcastLoop message l₂ h = .error Panic.sendOnClosedChannel) ∨
    ∃ a b, broadcastLoop message l₁ h = .ok a ∧ broadcastLoop message l₂ h = .ok b ∧
      a.send = b.send ∧ ∀ c, a.Clients.lookup c = b.Clients.lookup c := by
  have hnodup₂ : l₂.Nodup := hperm.nodup_iff.mp hnodup
  by_cases hcl : ∃ c ∈ l₁, (h.send c).closed = true
  · left
    refine ⟨broadcastLoop_panic message l₁ h hnodup hcl, ?_⟩
    obtain ⟨c, hc, hcc⟩ := hcl
    exact broadcastLoop_panic message l₂ h hnodup₂ ⟨c, hperm.mem_iff.mp hc, hcc⟩
  · right
    have hopen₁ : ∀ c ∈ l₁, (h.send c).closed = false := by
      intro c hc
      by_contra hne
      exact hcl ⟨c, hc, by simpa using hne⟩
    have hopen₂ : ∀ c ∈ l₂, (h.send c).closed = false :=
      fun c hc => hopen₁ c (hperm.mem_iff.mpr hc)
    refine ⟨_, _, broadcastLoop_ok message l₁ h hnodup hopen₁,
      broadcastLoop_ok message l₂ h hnodup₂ hopen₂, ?_, ?_⟩
    · funext c
      simp [hperm.mem_iff]
    · intro c
      simp [lookup_eraseAll, List.mem_filter, hperm.mem_iff]

/-- The `Broadcast` branch in a state whose registered clients have open
queues. -/
theorem RunStep_Broadcast_ok (h : HubState) (m : Frame)
    (hopen : ∀ c ∈ h.Clients.keys, (h.send c).closed = false) :
    RunStep h (.Broadcast m) =
      .ok { Clients := eraseAll (h.Clients.keys.filter (fun c => (h.send c).isFull)) h.Clients,
            send := fun c => if c ∈ h.Clients.keys then (h.send c).afterBroadcast m
                             else h.send c } :=
  broadcastLoop_ok m h.Clients.keys h h.Clients.keys_nodup hopen

/-! ## Claims on one step of the hub -/

/-- C1: in a hub state with N registered clients whose send queues all have
free capacity (each is open and holds fewer frames than its capacity), one
Broadcast step with message m succeeds, leaves the Clients map unchanged,
appends exactly the frame m to the queue of each registered client, touches no
other queue, and so enqueues N frames in total. -/
theorem broadcast_reaches_every_client (h : HubState) (m : Frame)
    (hfree : ∀ c ∈ h.Clients.keys,
      (h.send c).closed = false ∧ (h.send c).buf.length < (h.send c).cap) :
    ∃ h', RunStep h (.Broadcast m) = .ok h' ∧
      h'.Clients = h.Clients ∧
      (∀ c ∈ h.Clients.keys, h'.send c = { h.send c with buf := (h.send c).buf ++ [m] }) ∧
      (∀ c, c ∉ h.Clients.keys → h'.send c = h.send c) ∧
      (h.Clients.keys.map
        (fun c => (h'.send c).buf.length - (h.send c).buf.length)).sum = h.Clients.keys.length := by
  have hnotfull : ∀ c ∈ h.Clients.keys, (h.send c).isFull = false := by
    intro c hc
    have := (hfree c hc).2
    simp only [Chan.isFull, decide_eq_false_iff_not]
    omega
  have hfilter : h.Clients.keys.filter (fun c => (h.send c).isFull) = [] := by
    apply List.filter_eq_nil_iff.mpr
    intro c hc
    simp [hnotfull c hc]
  refine ⟨_, RunStep_Broadcast_ok h m (fun c hc => (hfree c hc).1), ?_, ?_, ?_, ?_⟩
  · simp [hfilter, eraseAll]
  · intro c hc
    simp [hc, Chan.afterBroadcast, hnotfull c hc]
  · intro c hc
    simp [hc]
  · have hone : ∀ c ∈ h.Clients.keys,
        ((if c ∈ h.Clients.keys then (h.send c).afterBroadcast m else h.send c).buf.length
          - (h.send c).buf.length) = 1 := by
      intro c hc
      simp [hc, Chan.afterBroadcast, hnotfull c hc]
    rw [List.map_congr_left hone]
    simp

theorem broadcast_reaches_every_client_witness :
    (∀ c ∈ idleHub.Clients.keys,
      (idleHub.send c).closed = false ∧ (idleHub.send c).buf.length < (idleHub.send c).cap) ∧
    ∃ h', RunStep idleHub (.Broadcast "m") = .ok h' ∧
      h'.Clients = idleHub.Clients ∧
      (∀ c ∈ idleHub.Clients.keys,
        h'.send c = { idleHub.send c with buf := (idleHub.send c).buf ++ ["m"] }) ∧
      (∀ c, c ∉ idleHub.Clients.keys → h'.send c = idleHub.send c) ∧
      (idleHub.Clients.keys.map
        (fun c => (h'.send c).buf.length - (idleHub.send c).buf.length)).sum
          = idleHub.Clients.keys.length :=
  ⟨by decide, broadcast_reaches_every_client idleHub "m" (by decide)⟩

/-- C2: in a hub state whose registered clients have open queues, a Broadcast
step with a registered client p whose queue is at capacity succeeds; afterwards
p is not in Clients and the queue of p is closed, with its pending frames
untouched, while every registered client whose queue was not full keeps its
entry in Clients and has the frame appended to its queue. -/
theorem broadcast_drops_full_client (h : HubState) (m : Frame) (p : ClientPtr)
    (hopen : ∀ c ∈ h.Clients.keys, (h.send c).closed = false)
    (hp : p ∈ h.Clients.keys) (hfull : (h.send p).cap ≤ (h.send p).buf.length) :
    ∃ h', RunStep h (.Broadcast m) = .ok h' ∧
      h'.Clients.lookup p = none ∧
      h'.send p = { h.send p with closed := true } ∧
      ∀ q ∈ h.Clients.keys, (h.send q).buf.length < (h.send q).cap →
        h'.Clients.lookup q = h.Clients.lookup q ∧
        h'.send q = { h.send q with buf := (h.send q).buf ++ [m] } := by
  refine ⟨_, RunStep_Broadcast_ok h m hopen, ?_, ?_, ?_⟩
  · have hpf : (h.send p).isFull = true := by simp [Chan.isFull, hfull]
    simp [lookup_eraseAll, List.mem_filter, hp, hpf]
  · have hpf : (h.send p).isFull = true := by simp [Chan.isFull, hfull]
    simp [hp, Chan.afterBroadcast, hpf]
  · intro q hq hroom
    have hqf : (h.send q).isFull = false := by
      simp only [Chan.isFull, decide_eq_false_iff_not]
      omega
    constructor
    · simp [lookup_eraseAll, List.mem_filter, hqf]
    · simp [hq, Chan.afterBroadcast, hqf]

theorem broadcast_drops_full_client_witness :
    (∀ c ∈ busyHub.Clients.keys, (busyHub.send c).closed = false) ∧
    2 ∈ busyHub.Clients.keys ∧ (busyHub.send 2).cap ≤ (busyHub.send 2).buf.length ∧
    ∃ h', RunStep busyHub (.Broadcast "m") = .ok h' ∧
      h'.Clients.lookup 2 = none ∧
      h'.send 2 = { busyHub.send 2 with closed := true } ∧
      ∀ q ∈ busyHub.Clients.keys, (busyHub.send q).buf.length < (busyHub.send q).cap →
        h'.Clients.lookup q = busyHub.Clients.lookup q ∧
        h'.send q = { busyHub.send q with buf := (busyHub.send q).buf ++ ["m"] } :=
  ⟨by decide, by decide, by decide,
    broadcast_drops_full_client busyHub "m" 2 (by decide) (by decide) (by decide)⟩


theorem RunStep_Unregister_absent (h : HubState) (c : ClientPtr)
    (hc : h.Clients.lookup c = none) : RunStep h (.Unregister c) = .ok h := by
  simp [RunStep, hc]

theorem RunStep_Unregister_member (h : HubState) (c : ClientPtr)
    (hc : c ∈ h.Clients.keys) (hopen : (h.send c).closed = false) :
    RunStep h (.Unregister c) =
      .ok { Clients := h.Clients.erase c,
            send := Function.update h.send c { h.send c with closed := true } } := by
  have hsome : (h.Clients.lookup c).isSome = true := (lookup_isSome_iff_mem_keys _ _).mpr hc
  obtain ⟨b, hb⟩ := Option.isSome_iff_exists.mp hsome
  simp [RunStep, hb, Chan.close, hopen]

theorem RunStep_Unregister_closed (h : HubState) (c : ClientPtr)
    (hc : c ∈ h.Clients.keys) (hclosed : (h.send c).closed = true) :
    RunStep h (.Unregister c) = .error Panic.closeOfClosedChannel := by
  have hsome : (h.Clients.lookup c).isSome = true := (lookup_isSome_iff_mem_keys _ _).mpr hc
  obtain ⟨b, hb⟩ := Option.isSome_iff_exists.mp hsome
  simp [RunStep, hb, Chan.close, hclosed]

theorem not_mem_keys_iff_lookup_none (m : AList (fun _ : ClientPtr => Bool)) (c : ClientPtr) :
    c ∉ m.keys ↔ m.lookup c = none := by
  rw [AList.lookup_eq_none, AList.mem_keys]

/-- C9: the Register step never fails; afterwards the client is mapped to
true, Clients holds the old keys and the new client and nothing else, every
other client has the entry it had, and no send queue has changed. -/
theorem register_adds_the_client (h : HubState) (c : ClientPtr) :
    ∃ h', RunStep h (.Register c) = .ok h' ∧
      h'.Clients.lookup c = some true ∧
      (∀ d, d ∈ h'.Clients.keys ↔ d = c ∨ d ∈ h.Clients.keys) ∧
      (∀ d, d ≠ c → h'.Clients.lookup d = h.Clients.lookup d) ∧
      h'.send = h.send := by
  refine ⟨_, rfl, ?_, ?_, ?_, rfl⟩
  · simp [AList.lookup_insert]
  · intro d
    simp only [← AList.mem_keys, AList.mem_insert]
  · intro d hd
    simp [AList.lookup_insert_ne hd]

/-- C10: the Unregister step for a client c of Clients whose queue is open
removes c from Clients and closes the queue of c, keeping its pending frames
and capacity; the entry of every other client and every other queue are
unchanged.  For a client that is not in Clients the step changes nothing. -/
theorem unregister_removes_the_client (h : HubState) (c : ClientPtr) :
    (c ∈ h.Clients.keys → (h.send c).closed = false →
      ∃ h', RunStep h (.Unregister c) = .ok h' ∧
        h'.Clients.lookup c = none ∧
        h'.send c = { h.send c with closed := true } ∧
        ∀ d, d ≠ c → h'.Clients.lookup d = h.Clients.lookup d ∧ h'.send d = h.send d) ∧
    (c ∉ h.Clients.keys → RunStep h (.Unregister c) = .ok h) := by
  constructor
  · intro hc hopen
    refine ⟨_, RunStep_Unregister_member h c hc hopen, ?_, ?_, ?_⟩
    · simp [AList.lookup_erase]
    · simp
    · intro d hd
      exact ⟨by simp [AList.lookup_erase_ne hd], by simp [Function.update_noteq hd]⟩
  · intro hc
    exact RunStep_Unregister_absent h c ((not_mem_keys_iff_lookup_none _ _).mp hc)

theorem unregister_removes_the_client_witness :
    (1 ∈ idleHub.Clients.keys ∧ (idleHub.send 1).closed = false ∧
      ∃ h', RunStep idleHub (.Unregister 1) = .ok h' ∧
        h'.Clients.lookup 1 = none ∧
        h'.send 1 = { idleHub.send 1 with closed := true } ∧
        ∀ d, d ≠ 1 → h'.Clients.lookup d = idleHub.Clients.lookup d ∧
          h'.send d = idleHub.send d) ∧
    (7 ∉ idleHub.Clients.keys ∧ RunStep idleHub (.Unregister 7) = .ok idleHub) :=
  ⟨⟨by decide, by decide,
      (unregister_removes_the_client idleHub 1).1 (by decide) (by decide)⟩,
    ⟨by decide, (unregister_removes_the_client idleHub 7).2 (by decide)⟩⟩

/-- C6: Unregister is idempotent.  Serving the Unregister request for p twice
in a row gives the same outcome as serving it once; and whenever the first
step ends in a state, the second step ends without error in that very state
(same Clients, same queues, same closed flags), in which p is not in Clients,
so that the queue of p is not closed again. -/
theorem unregister_twice_same_as_once (h : HubState) (p : ClientPtr) :
    exec h [.req (.Unregister p), .req (.Unregister p)] = exec h [.req (.Unregister p)] ∧
    ∀ h₁, RunStep h (.Unregister p) = .ok h₁ →
      RunStep h₁ (.Unregister p) = .ok h₁ ∧ h₁.Clients.lookup p = none := by
  have hsecond : ∀ h₁, RunStep h (.Unregister p) = .ok h₁ →
      RunStep h₁ (.Unregister p) = .ok h₁ ∧ h₁.Clients.lookup p = none := by
    intro h₁ hfirst
    have hgone : h₁.Clients.lookup p = none := by
      by_cases hp : p ∈ h.Clients.keys
      · by_cases hcl : (h.send p).closed = true
        · rw [RunStep_Unregister_closed h p hp hcl] at hfirst
          cases hfirst
        · have hopen : (h.send p).closed = false := by simpa using hcl
          rw [RunStep_Unregister_member h p hp hopen] at hfirst
          cases hfirst
          simp [AList.lookup_erase]
      · have hnone := (not_mem_keys_iff_lookup_none _ _).mp hp
        rw [RunStep_Unregister_absent h p hnone] at hfirst
        cases hfirst
        exact hnone
    exact ⟨RunStep_Unregister_absent h₁ p hgone, hgone⟩
  refine ⟨?_, hsecond⟩
  simp only [exec, step]
  cases hfirst : RunStep h (.Unregister p) with
  | error e => rfl
  | ok h₁ => simp [(hsecond h₁ hfirst).1]

theorem unregister_twice_same_as_once_witness :
    ∃ h₁, RunStep idleHub (.Unregister 1) = .ok h₁ ∧
      RunStep h₁ (.Unregister 1) = .ok h₁ ∧ h₁.Clients.lookup 1 = none :=
  ⟨_, RunStep_Unregister_member idleHub 1 (by decide) (by decide),
    (unregister_twice_same_as_once idleHub 1).2 _
      (RunStep_Unregister_member idleHub 1 (by decide) (by decide))⟩


/-! ## Claims on runs of the hub -/

theorem StaysIn_head (c : ClientPtr) (h : HubState) (evs : List Event)
    (hstay : StaysIn c h evs = true) : c ∈ h.Clients.keys := by
  apply (lookup_isSome_iff_mem_keys _ _).mp
  cases evs with
  | nil => simpa [StaysIn] using hstay
  | cons e es =>
    simp only [StaysIn, Bool.and_eq_true] at hstay
    exact hstay.1

/-- One event, seen from the queue of a client that is registered before and
after it: what the write pump took, followed by the queue afterwards, is the
queue before followed by the broadcast message. -/
theorem step_queue (c : ClientPtr) (h h₁ : HubState) (e : Event)
    (hstep : step h e = .ok h₁) (hin : c ∈ h.Clients.keys) (hin₁ : c ∈ h₁.Clients.keys) :
    taken c h e ++ (h₁.send c).buf = (h.send c).buf ++ broadcastOf e := by
  cases e with
  | drain d =>
    simp only [step, Except.ok.injEq] at hstep
    subst hstep
    by_cases hdc : d = c
    · subst hdc
      cases hbuf : (h.send d).buf with
      | nil => simp [taken, broadcastOf, Chan.recv, hbuf]
      | cons v rest => simp [taken, broadcastOf, Chan.recv, hbuf]
    · have hcd : c ≠ d := fun e => hdc e.symm
      simp [taken, broadcastOf, hdc, Function.update_noteq hcd]
  | req r =>
    cases r with
    | Register d =>
      simp only [step, RunStep, Except.ok.injEq] at hstep
      subst hstep
      simp [taken, broadcastOf]
    | Unregister d =>
      simp only [step] at hstep
      by_cases hd : d ∈ h.Clients.keys
      · by_cases hcl : (h.send d).closed = true
        · rw [RunStep_Unregister_closed h d hd hcl] at hstep
          cases hstep
        · have hopen : (h.send d).closed = false := by simpa using hcl
          rw [RunStep_Unregister_member h d hd hopen] at hstep
          cases hstep
          have hcd : c ≠ d := by
            intro e
            subst e
            have hlk := (lookup_isSome_iff_mem_keys _ _).mpr hin₁
            simp [AList.lookup_erase] at hlk
          simp [taken, broadcastOf, Function.update_noteq hcd]
      · rw [RunStep_Unregister_absent h d ((not_mem_keys_iff_lookup_none _ _).mp hd)] at hstep
        cases hstep
        simp [taken, broadcastOf]
    | Broadcast m =>
      simp only [step] at hstep
      have hopen := broadcastLoop_ok_open m h.Clients.keys h h₁ h.Clients.keys_nodup hstep
      rw [RunStep_Broadcast_ok h m hopen] at hstep
      cases hstep
      have hnotfull : (h.send c).isFull = false := by
        by_contra hf
        have hf' : (h.send c).isFull = true := by simpa using hf
        have hlk := (lookup_isSome_iff_mem_keys _ _).mpr hin₁
        simp [lookup_eraseAll, List.mem_filter, hin, hf'] at hlk
      simp [taken, broadcastOf, hin, Chan.afterBroadcast, hnotfull]

/-- C5: for a client c and a run of hub steps, interleaved or not with the
write pumps taking frames from the queues, during which c stays in Clients:
the run ends in a state, and the frames that left the queue of c followed by
the frames still in it are the frames that were in it at the beginning followed
by the messages of the Broadcast steps of the run, in the order of those steps.
So what is appended to the queue of c is exactly the broadcast messages, in
order, each once. -/
theorem queue_receives_broadcasts_in_order (c : ClientPtr) (h : HubState)
    (evs : List Event) (hstay : StaysIn c h evs = true) :
    ∃ h', exec h evs = .ok h' ∧
      drained c h evs ++ (h'.send c).buf = (h.send c).buf ++ broadcastsOf evs := by
  induction evs generalizing h with
  | nil => exact ⟨h, rfl, by simp [drained, broadcastsOf]⟩
  | cons e es ih =>
    have hin := StaysIn_head c h _ hstay
    simp only [StaysIn, Bool.and_eq_true] at hstay
    cases hstep : step h e with
    | error p => simp [hstep] at hstay
    | ok h₁ =>
      simp only [hstep] at hstay
      have hin₁ := StaysIn_head c h₁ es hstay.2
      have hone := step_queue c h h₁ e hstep hin hin₁
      obtain ⟨h', hrun, hrest⟩ := ih h₁ hstay.2
      refine ⟨h', by simp only [exec, hstep]; exact hrun, ?_⟩
      simp only [drained, hstep, broadcastsOf, List.append_assoc]
      rw [hrest, ← List.append_assoc, hone, List.append_assoc]

theorem queue_receives_broadcasts_in_order_witness :
    StaysIn 1 idleHub [.req (.Broadcast "a"), .drain 1, .req (.Unregister 2),
        .req (.Broadcast "b"), .req (.Broadcast "c")] = true ∧
    ∃ h', exec idleHub [.req (.Broadcast "a"), .drain 1, .req (.Unregister 2),
        .req (.Broadcast "b"), .req (.Broadcast "c")] = .ok h' ∧
      drained 1 idleHub [.req (.Broadcast "a"), .drain 1, .req (.Unregister 2),
        .req (.Broadcast "b"), .req (.Broadcast "c")] ++ (h'.send 1).buf
        = (idleHub.send 1).buf ++ ["a", "b", "c"] :=
  ⟨by decide, queue_receives_broadcasts_in_order 1 idleHub
    [.req (.Broadcast "a"), .drain 1, .req (.Unregister 2),
      .req (.Broadcast "b"), .req (.Broadcast "c")] (by decide)⟩

/-- One event that, if it is a Broadcast, finds no registered queue full:
the Clients map changes as the Register or Unregister request says, and not at
all otherwise. -/
theorem step_clients (h h₁ : HubState) (e : Event)
    (hstep : step h e = .ok h₁) (hroom : roomForBroadcast h e = true) :
    h₁.Clients = memberStep h.Clients e := by
  cases e with
  | drain d =>
    simp only [step, Except.ok.injEq] at hstep
    subst hstep
    rfl
  | req r =>
    cases r with
    | Register d =>
      simp only [step, RunStep, Except.ok.injEq] at hstep
      subst hstep
      rfl
    | Unregister d =>
      simp only [step] at hstep
      by_cases hd : d ∈ h.Clients.keys
      · by_cases hcl : (h.send d).closed = true
        · rw [RunStep_Unregister_closed h d hd hcl] at hstep
          cases hstep
        · have hopen : (h.send d).closed = false := by simpa using hcl
          rw [RunStep_Unregister_member h d hd hopen] at hstep
          cases hstep
          rfl
      · have hnone := (not_mem_keys_iff_lookup_none _ _).mp hd
        rw [RunStep_Unregister_absent h d hnone] at hstep
        cases hstep
        simp [memberStep, erase_of_lookup_none _ _ hnone]
    | Broadcast m =>
      simp only [step] at hstep
      have hopen := broadcastLoop_ok_open m h.Clients.keys h h₁ h.Clients.keys_nodup hstep
      rw [RunStep_Broadcast_ok h m hopen] at hstep
      cases hstep
      have hnotfull : ∀ d ∈ h.Clients.keys, (h.send d).isFull = false := by
        simpa [roomForBroadcast] using hroom
      have hfilter : h.Clients.keys.filter (fun c => (h.send c).isFull) = [] := by
        apply List.filter_eq_nil_iff.mpr
        intro d hd
        simp [hnotfull d hd]
      simp [memberStep, hfilter, eraseAll]

/-- A run that ends in a state and in which no Broadcast finds a registered
queue full: the Clients map at the end is the one computed from the Register
and Unregister requests alone. -/
theorem exec_clients (h h' : HubState) (evs : List Event)
    (hrun : exec h evs = .ok h') (hroom : NoFullQueue h evs = true) :
    h'.Clients = membershipOnly h.Clients evs := by
  induction evs generalizing h with
  | nil =>
    simp only [exec, Except.ok.injEq] at hrun
    subst hrun
    rfl
  | cons e es ih =>
    simp only [NoFullQueue, Bool.and_eq_true] at hroom
    cases hstep : step h e with
    | error p => simp [exec, hstep] at hrun
    | ok h₁ =>
      simp only [exec, hstep] at hrun
      simp only [hstep] at hroom
      rw [ih h₁ hrun hroom.2, step_clients h h₁ e hstep hroom.1]
      rfl

theorem recv_closed (ch : Chan) : ch.recv.2.closed = ch.closed := by
  unfold Chan.recv
  cases ch.buf <;> rfl

/-- Panic freedom of a run.  In a state where every registered client has an
open queue, and where neither a registered client nor a client with a closed
queue is registered again, a run that registers every client at most once and
never serves a Broadcast with a full queue ends in a state, whose Clients map
is the one computed from the Register and Unregister requests alone. -/
theorem exec_membership (h : HubState) (evs : List Event)
    (hmem : ∀ d ∈ h.Clients.keys, (h.send d).closed = false ∧ d ∉ registeredIn evs)
    (hcl : ∀ d, (h.send d).closed = true → d ∉ registeredIn evs)
    (honce : (registeredIn evs).Nodup)
    (hroom : NoFullQueue h evs = true) :
    ∃ h', exec h evs = .ok h' ∧ h'.Clients = membershipOnly h.Clients evs := by
  induction evs generalizing h with
  | nil => exact ⟨h, rfl, rfl⟩
  | cons e es ih =>
    simp only [NoFullQueue, Bool.and_eq_true] at hroom
    obtain ⟨hroom₀, hroomRest⟩ := hroom
    cases e with
    | drain c =>
      have hreg : registeredIn (Event.drain c :: es) = registeredIn es := rfl
      rw [hreg] at hmem hcl honce
      have hstep : step h (.drain c) =
          .ok { h with send := Function.update h.send c (h.send c).recv.2 } := rfl
      simp only [hstep] at hroomRest
      have hflag : ∀ d, (Function.update h.send c (h.send c).recv.2 d).closed
          = (h.send d).closed := by
        intro d
        by_cases hdc : d = c
        · subst hdc
          simp [recv_closed]
        · simp [Function.update_noteq hdc]
      obtain ⟨h', hrun, hres⟩ :=
        ih { h with send := Function.update h.send c (h.send c).recv.2 }
          (fun d hd => ⟨by rw [hflag]; exact (hmem d hd).1, (hmem d hd).2⟩)
          (fun d hd => hcl d (by rw [hflag] at hd; exact hd)) honce hroomRest
      exact ⟨h', by simp only [exec, hstep]; exact hrun, by simpa [membershipOnly, memberStep] using hres⟩
    | req r =>
      cases r with
      | Register c =>
        have hreg : registeredIn (Event.req (.Register c) :: es) = c :: registeredIn es := rfl
        rw [hreg] at hmem hcl honce
        have hcnot : c ∉ registeredIn es := (List.nodup_cons.mp honce).1
        have hstep : step h (.req (.Register c)) =
            .ok { h with Clients := h.Clients.insert c true } := rfl
        simp only [hstep] at hroomRest
        have hcopen : (h.send c).closed = false := by
          by_contra hne
          exact hcl c (by simpa using hne) (List.mem_cons_self c _)
        obtain ⟨h', hrun, hres⟩ := ih { h with Clients := h.Clients.insert c true }
          (by
            intro d hd
            have hd' : d = c ∨ d ∈ h.Clients.keys := by
              simpa only [← AList.mem_keys, AList.mem_insert] using hd
            rcases hd' with hdc | hdk
            · subst hdc
              exact ⟨hcopen, hcnot⟩
            · exact ⟨(hmem d hdk).1, fun hin => (hmem d hdk).2 (List.mem_cons_of_mem c hin)⟩)
          (fun d hd hin => hcl d hd (List.mem_cons_of_mem c hin))
          (List.nodup_cons.mp honce).2 hroomRest
        exact ⟨h', by simp only [exec, hstep]; exact hrun,
          by simpa [membershipOnly, memberStep] using hres⟩
      | Unregister c =>
        have hreg : registeredIn (Event.req (.Unregister c) :: es) = registeredIn es := rfl
        rw [hreg] at hmem hcl honce
        by_cases hc : c ∈ h.Clients.keys
        · have hstep : step h (.req (.Unregister c)) = _ :=
            RunStep_Unregister_member h c hc (hmem c hc).1
          simp only [hstep] at hroomRest
          obtain ⟨h', hrun, hres⟩ :=
            ih { Clients := h.Clients.erase c,
                 send := Function.update h.send c { h.send c with closed := true } }
            (by
              intro d hd
              have hd' : d ≠ c ∧ d ∈ h.Clients.keys := by
                simpa only [← AList.mem_keys, AList.mem_erase] using hd
              simp only [Function.update_noteq hd'.1]
              exact hmem d hd'.2)
            (by
              intro d hd
              by_cases hdc : d = c
              · subst hdc
                exact (hmem d hc).2
              · simp only [Function.update_noteq hdc] at hd
                exact hcl d hd)
            honce hroomRest
          exact ⟨h', by simp only [exec, hstep]; exact hrun,
            by simpa [membershipOnly, memberStep] using hres⟩
        · have hnone := (not_mem_keys_iff_lookup_none _ _).mp hc
          have hstep : step h (.req (.Unregister c)) = .ok h :=
            RunStep_Unregister_absent h c hnone
          simp only [hstep] at hroomRest
          obtain ⟨h', hrun, hres⟩ := ih h hmem hcl honce hroomRest
          exact ⟨h', by simp only [exec, hstep]; exact hrun,
            by simpa [membershipOnly, memberStep, erase_of_lookup_none _ _ hnone] using hres⟩
      | Broadcast m =>
        have hreg : registeredIn (Event.req (.Broadcast m) :: es) = registeredIn es := rfl
        rw [hreg] at hmem hcl honce
        have hnotfull : ∀ d ∈ h.Clients.keys, (h.send d).isFull = false := by
          simpa [roomForBroadcast] using hroom₀
        have hfilter : h.Clients.keys.filter (fun c => (h.send c).isFull) = [] := by
          apply List.filter_eq_nil_iff.mpr
          intro d hd
          simp [hnotfull d hd]
        have hstep : step h (.req (.Broadcast m)) = _ :=
          RunStep_Broadcast_ok h m (fun d hd => (hmem d hd).1)
        simp only [hstep, hfilter] at hroomRest
        have hflag : ∀ d, (if d ∈ h.Clients.keys then (h.send d).afterBroadcast m
            else h.send d).closed = (h.send d).closed := by
          intro d
          by_cases hd : d ∈ h.Clients.keys
          · simp [hd, Chan.afterBroadcast, hnotfull d hd]
          · simp [hd]
        obtain ⟨h', hrun, hres⟩ :=
          ih { Clients := eraseAll [] h.Clients,
               send := fun c => if c ∈ h.Clients.keys then (h.send c).afterBroadcast m
                                else h.send c }
          (by
            intro d hd
            have hd' : d ∈ h.Clients.keys := by simpa [eraseAll] using hd
            exact ⟨by simp only [hflag]; exact (hmem d hd').1, (hmem d hd').2⟩)
          (fun d hd => hcl d (by simp only [hflag] at hd; exact hd)) honce hroomRest
        exact ⟨h', by simp only [exec, hstep, hfilter]; exact hrun,
          by simpa [membershipOnly, memberStep, eraseAll] using hres⟩

/-- C4, as the code has it: take a new hub and a finite run of Register,
Unregister and Broadcast steps (interleaved or not with the write pumps taking
frames) in which no Broadcast step finds the queue of a registered client
full.  Then the Clients map in which the run ends is the one obtained by
applying only the Register steps (insert) and the Unregister steps (delete,
nothing to do for a non-member) in the same order.  And the run does end in a
state, without panic, when every client has an open queue at the beginning and
is registered at most once. -/
theorem membership_follows_register_unregister (send : ClientPtr → Chan) (evs : List Event)
    (hroom : NoFullQueue (NewHub send) evs = true) :
    (∀ h', exec (NewHub send) evs = .ok h' → h'.Clients = membershipOnly ∅ evs) ∧
    ((∀ c, (send c).closed = false) → (registeredIn evs).Nodup →
      ∃ h', exec (NewHub send) evs = .ok h') := by
  constructor
  · intro h' hrun
    exact exec_clients (NewHub send) h' evs hrun hroom
  · intro hopen honce
    obtain ⟨h', hrun, _⟩ := exec_membership (NewHub send) evs
      (by
        intro d hd
        simp [NewHub] at hd)
      (by
        intro d hd
        simp [NewHub, hopen d] at hd)
      honce hroom
    exact ⟨h', hrun⟩

theorem membership_follows_register_unregister_witness :
    NoFullQueue (NewHub (freshQueues 2)) [.req (.Register 1), .req (.Register 2),
      .req (.Broadcast "a"), .req (.Unregister 1), .req (.Unregister 1),
      .req (.Broadcast "b"), .drain 2, .req (.Broadcast "c")] = true ∧
    (∀ c, (freshQueues 2 c).closed = false) ∧
    (registeredIn [.req (.Register 1), .req (.Register 2), .req (.Broadcast "a"),
      .req (.Unregister 1), .req (.Unregister 1), .req (.Broadcast "b"), .drain 2,
      .req (.Broadcast "c")]).Nodup ∧
    ∃ h', exec (NewHub (freshQueues 2)) [.req (.Register 1), .req (.Register 2),
        .req (.Broadcast "a"), .req (.Unregister 1), .req (.Unregister 1),
        .req (.Broadcast "b"), .drain 2, .req (.Broadcast "c")] = .ok h' ∧
      h'.Clients = membershipOnly ∅ [.req (.Register 1), .req (.Register 2),
        .req (.Broadcast "a"), .req (.Unregister 1), .req (.Unregister 1),
        .req (.Broadcast "b"), .drain 2, .req (.Broadcast "c")] :=
  ⟨by decide, fun _ => rfl, by decide,
    (((membership_follows_register_unregister (freshQueues 2) _ (by decide)).2
      (fun _ => rfl) (by decide)).imp
      (fun h' hrun => ⟨hrun,
        (membership_follows_register_unregister (freshQueues 2) _ (by decide)).1 h' hrun⟩))⟩

/-- C4 as stated fails: with queues of capacity 2, after Register 1 and three
Broadcast steps the hub has dropped client 1 (the third Broadcast found its
queue full), although Register and Unregister alone give the set with 1 in
it. -/
theorem membership_ignoring_broadcast_counterexample :
    (exec (NewHub (freshQueues 2)) [.req (.Register 1), .req (.Broadcast "a"),
        .req (.Broadcast "b"), .req (.Broadcast "c")]).map (fun h => h.Clients.keys)
      = .ok [] ∧
    (membershipOnly ∅ [.req (.Register 1), .req (.Broadcast "a"),
        .req (.Broadcast "b"), .req (.Broadcast "c")]).keys = [1] := by
  decide


/-! ## Claims on `BroadcastMessage` -/

theorem sortByKey_message {α : Type} (a b : α) :
    sortByKey [("type", a), ("payload", b)] = [("payload", b), ("type", a)] := by
  have hle : keyLE "type" "payload" = false := by decide
  simp [sortByKey, List.insertionSort, List.orderedInsert, hle]

theorem object_text (j t : String) :
    "\x7b" ++ ",".intercalate [quote "payload" ++ ":" ++ j, quote "type" ++ ":" ++ t] ++ "\x7d"
      = "\x7b\"payload\":" ++ j ++ ",\"type\":" ++ t ++ "\x7d" := by
  have hpayload : quote "payload" = "\"payload\"" := by decide
  have htype : quote "type" = "\"type\"" := by decide
  rw [hpayload, htype]
  apply String.ext
  simp [String.intercalate, String.intercalate.go]

/-- Encoding of the map that `BroadcastMessage` builds: it fails exactly when
the payload fails, with the same error, and otherwise is the object with the
member `payload` first and the member `type` second. -/
theorem marshal_message (k : String) (p : GoValue) :
    json.Marshal (message k p) =
      match json.Marshal p with
      | .error e => .error e
      | .ok j => .ok ("\x7b\"payload\":" ++ j ++ ",\"type\":" ++ quote k ++ "\x7d") := by
  rw [message, json.Marshal]
  simp only [json.marshalValues, sortByKey_message]
  cases json.Marshal p with
  | error e => simp [writeMembers, bracket, json.Marshal]
  | ok j => simp [writeMembers, bracket, json.Marshal, object_text]

/-- C3, as the code has it: for every kind k and every payload p that encodes
to the JSON text j, the frame that BroadcastMessage hands to the hub is the
JSON object with the two members in sorted key order, the member payload first
and the member type second: the text of j after the key payload, the quoted
kind after the key type, no white space. -/
theorem frame_has_payload_then_type (k : String) (p : GoValue) (j : String)
    (hp : json.Marshal p = .ok j) :
    (BroadcastMessage k p).2.sent
      = some ("\x7b\"payload\":" ++ j ++ ",\"type\":" ++ quote k ++ "\x7d") := by
  simp [BroadcastMessage, marshal_message, hp]

theorem frame_has_payload_then_type_witness :
    json.Marshal (GoValue.map [("id", GoValue.string "f1"), ("name", GoValue.string "Invoices")])
      = .ok "\x7b\"id\":\"f1\",\"name\":\"Invoices\"\x7d" ∧
    (BroadcastMessage "folder-created"
        (GoValue.map [("id", GoValue.string "f1"), ("name", GoValue.string "Invoices")])).2.sent
      = some ("\x7b\"payload\":" ++ "\x7b\"id\":\"f1\",\"name\":\"Invoices\"\x7d" ++ ",\"type\":"
          ++ quote "folder-created" ++ "\x7d") :=
  ⟨by decide, frame_has_payload_then_type "folder-created" _ _ (by decide)⟩

/-- C3 as stated fails: for the kind folder-created and the payload with id f1
and name Invoices, given as a map or as a struct, the frame handed to the hub
starts with the member payload and ends with the member type; it is not the
text with the member type first. -/
theorem frame_type_first_counterexample :
    (BroadcastMessage "folder-created"
        (GoValue.map [("id", GoValue.string "f1"), ("name", GoValue.string "Invoices")])).2.sent
      = some "\x7b\"payload\":\x7b\"id\":\"f1\",\"name\":\"Invoices\"\x7d,\"type\":\"folder-created\"\x7d" ∧
    (BroadcastMessage "folder-created"
        (GoValue.struct [("id", GoValue.string "f1"), ("name", GoValue.string "Invoices")])).2.sent
      = some "\x7b\"payload\":\x7b\"id\":\"f1\",\"name\":\"Invoices\"\x7d,\"type\":\"folder-created\"\x7d" ∧
    (BroadcastMessage "folder-created"
        (GoValue.map [("id", GoValue.string "f1"), ("name", GoValue.string "Invoices")])).2.sent
      ≠ some "\x7b\"type\":\"folder-created\",\"payload\":\x7b\"id\":\"f1\",\"name\":\"Invoices\"\x7d\x7d" := by
  decide

/-- C7, as the code has it: BroadcastMessage has no result, so what it returns
to its caller is the unit value whatever happens.  An event that fails to
serialize is written to the log and nothing is sent to the hub; an event that
serializes is sent to the hub and nothing is logged.  The queues of the
clients play no part in the call, and when the registered clients have open
queues, full or not, the hub serves the frame without panic. -/
theorem BroadcastMessage_reports_nothing (k : String) (p : GoValue) :
    (BroadcastMessage k p).1 = () ∧
    ((∃ e, json.Marshal (message k p) = .error e ∧
        (BroadcastMessage k p).2 =
          { logged := ["Error marshaling message: " ++ e], sent := none }) ∨
      (∃ data, json.Marshal (message k p) = .ok data ∧
        (BroadcastMessage k p).2 = { logged := [], sent := some data })) ∧
    ∀ h : HubState, (∀ c ∈ h.Clients.keys, (h.send c).closed = false) →
      ∃ h', hubAfterBroadcastMessage h k p = .ok h' := by
  refine ⟨rfl, ?_, ?_⟩
  · cases hm : json.Marshal (message k p) with
    | error e => exact Or.inl ⟨e, rfl, by simp [BroadcastMessage, hm]⟩
    | ok data => exact Or.inr ⟨data, rfl, by simp [BroadcastMessage, hm]⟩
  · intro h hopen
    cases hm : json.Marshal (message k p) with
    | error e => exact ⟨h, by simp [hubAfterBroadcastMessage, BroadcastMessage, hm]⟩
    | ok data =>
      exact ⟨_, by
        simp only [hubAfterBroadcastMessage, BroadcastMessage, hm]
        exact RunStep_Broadcast_ok h data hopen⟩

theorem BroadcastMessage_reports_nothing_witness :
    (∀ c ∈ busyHub.Clients.keys, (busyHub.send c).closed = false) ∧
    ∃ h', hubAfterBroadcastMessage busyHub "file_deleted"
      (GoValue.map [("id", GoValue.string "42")]) = .ok h' :=
  ⟨by decide,
    (BroadcastMessage_reports_nothing "file_deleted"
      (GoValue.map [("id", GoValue.string "42")])).2.2 busyHub (by decide)⟩

/-- C7 as stated fails: the event with a channel as payload fails to serialize
and the event with a map as payload serializes and is sent, yet BroadcastMessage
returns the same value to its caller for both; no test on the returned value
holds exactly for the events that fail to serialize. -/
theorem failure_report_counterexample :
    json.Marshal (message "file_deleted" (GoValue.invalid "json: unsupported type: chan int"))
      = .error "json: unsupported type: chan int" ∧
    (BroadcastMessage "file_deleted" (GoValue.map [("id", GoValue.string "42")])).2.sent
      = some "\x7b\"payload\":\x7b\"id\":\"42\"\x7d,\"type\":\"file_deleted\"\x7d" ∧
    (BroadcastMessage "file_deleted" (GoValue.invalid "json: unsupported type: chan int")).1
      = (BroadcastMessage "file_deleted" (GoValue.map [("id", GoValue.string "42")])).1 ∧
    ¬ ∃ failed : Unit → Bool, ∀ (k : String) (p : GoValue),
        failed (BroadcastMessage k p).1 = true ↔ ∃ e, json.Marshal (message k p) = .error e := by
  refine ⟨by decide, by decide, rfl, ?_⟩
  rintro ⟨failed, hfailed⟩
  have hbad := (hfailed "file_deleted" (GoValue.invalid "json: unsupported type: chan int")).mpr
    ⟨"json: unsupported type: chan int", by decide⟩
  have hgood := (hfailed "file_deleted" (GoValue.map [("id", GoValue.string "42")])).mp hbad
  obtain ⟨e, he⟩ := hgood
  have hok : json.Marshal (message "file_deleted" (GoValue.map [("id", GoValue.string "42")]))
      = .ok "\x7b\"payload\":\x7b\"id\":\"42\"\x7d,\"type\":\"file_deleted\"\x7d" := by decide
  rw [hok] at he
  cases he

/-- C8: for every hub state and every event whose serialization fails,
BroadcastMessage sends nothing to the hub, and the hub state after the call is
the state before it: no queue has a frame appended, no client is removed. -/
theorem failed_event_changes_nothing (h : HubState) (k : String) (p : GoValue) (e : String)
    (hfail : json.Marshal (message k p) = .error e) :
    (BroadcastMessage k p).2.sent = none ∧ hubAfterBroadcastMessage h k p = .ok h := by
  simp [hubAfterBroadcastMessage, BroadcastMessage, hfail]

theorem failed_event_changes_nothing_witness :
    json.Marshal (message "new_file" (GoValue.slice [GoValue.int 1,
        GoValue.invalid "json: unsupported type: func()"]))
      = .error "json: unsupported type: func()" ∧
    (BroadcastMessage "new_file" (GoValue.slice [GoValue.int 1,
        GoValue.invalid "json: unsupported type: func()"])).2.sent = none ∧
    hubAfterBroadcastMessage busyHub "new_file" (GoValue.slice [GoValue.int 1,
        GoValue.invalid "json: unsupported type: func()"]) = .ok busyHub :=
  ⟨by decide, failed_event_changes_nothing busyHub "new_file" _
    "json: unsupported type: func()" (by decide)⟩


/-! ## Steps of the hub, client by client -/

theorem mem_keys_eraseAll (ks : List ClientPtr) (m : AList (fun _ : ClientPtr => Bool))
    (c : ClientPtr) : c ∈ (eraseAll ks m).keys ↔ c ∈ m.keys ∧ c ∉ ks := by
  rw [← lookup_isSome_iff_mem_keys, ← lookup_isSome_iff_mem_keys, lookup_eraseAll]
  by_cases hc : c ∈ ks
  · simp [hc]
  · simp [hc]

/-- Keys of the Clients map after a Broadcast step: the registered clients
whose queue was not full. -/
theorem mem_keys_after_broadcast (h : HubState) (c : ClientPtr) :
    c ∈ (eraseAll (h.Clients.keys.filter (fun d => (h.send d).isFull)) h.Clients).keys ↔
      c ∈ h.Clients.keys ∧ (h.send c).isFull = false := by
  rw [mem_keys_eraseAll]
  by_cases hc : c ∈ h.Clients.keys
  · by_cases hf : (h.send c).isFull = true
    · simp [hc, hf, List.mem_filter]
    · simp [hc, hf, List.mem_filter]
  · simp [hc]

/-- One event in a state whose registered clients have open queues, when
neither a registered client nor a client with a closed queue is the client of
a coming Register request: the event is served without panic and the next
state is of the same kind for the remaining Register requests. -/
theorem step_no_panic (h : HubState) (e : Event) (regs : List ClientPtr)
    (hmem : ∀ d ∈ h.Clients.keys, (h.send d).closed = false ∧ d ∉ registerOf e ++ regs)
    (hcl : ∀ d, (h.send d).closed = true → d ∉ registerOf e ++ regs)
    (honce : (registerOf e ++ regs).Nodup) :
    ∃ h₁, step h e = .ok h₁ ∧
      (∀ d ∈ h₁.Clients.keys, (h₁.send d).closed = false ∧ d ∉ regs) ∧
      (∀ d, (h₁.send d).closed = true → d ∉ regs) := by
  cases e with
  | drain c =>
    have hreg : registerOf (Event.drain c) ++ regs = regs := rfl
    rw [hreg] at hmem hcl
    have hflag : ∀ d, (Function.update h.send c (h.send c).recv.2 d).closed
        = (h.send d).closed := by
      intro d
      by_cases hdc : d = c
      · subst hdc
        simp [recv_closed]
      · simp [Function.update_noteq hdc]
    refine ⟨{ h with send := Function.update h.send c (h.send c).recv.2 }, rfl, ?_, ?_⟩
    · intro d hd
      exact ⟨by rw [hflag]; exact (hmem d hd).1, (hmem d hd).2⟩
    · intro d hd
      rw [hflag] at hd
      exact hcl d hd
  | req r =>
    cases r with
    | Register c =>
      have hreg : registerOf (Event.req (.Register c)) ++ regs = c :: regs := rfl
      rw [hreg] at hmem hcl honce
      have hcnot : c ∉ regs := (List.nodup_cons.mp honce).1
      have hcopen : (h.send c).closed = false := by
        by_contra hne
        exact hcl c (by simpa using hne) (List.mem_cons_self c _)
      refine ⟨{ h with Clients := h.Clients.insert c true }, rfl, ?_, ?_⟩
      · intro d hd
        have hd' : d = c ∨ d ∈ h.Clients.keys := by
          simpa only [← AList.mem_keys, AList.mem_insert] using hd
        rcases hd' with hdc | hdk
        · subst hdc
          exact ⟨hcopen, hcnot⟩
        · exact ⟨(hmem d hdk).1, fun hin => (hmem d hdk).2 (List.mem_cons_of_mem c hin)⟩
      · intro d hd hin
        exact hcl d hd (List.mem_cons_of_mem c hin)
    | Unregister c =>
      have hreg : registerOf (Event.req (.Unregister c)) ++ regs = regs := rfl
      rw [hreg] at hmem hcl
      by_cases hc : c ∈ h.Clients.keys
      · refine ⟨_, RunStep_Unregister_member h c hc (hmem c hc).1, ?_, ?_⟩
        · intro d hd
          have hd' : d ≠ c ∧ d ∈ h.Clients.keys := by
            simpa only [← AList.mem_keys, AList.mem_erase] using hd
          simp only [Function.update_noteq hd'.1]
          exact hmem d hd'.2
        · intro d hd
          by_cases hdc : d = c
          · subst hdc
            exact (hmem d hc).2
          · simp only [Function.update_noteq hdc] at hd
            exact hcl d hd
      · exact ⟨h, RunStep_Unregister_absent h c ((not_mem_keys_iff_lookup_none _ _).mp hc),
          hmem, hcl⟩
    | Broadcast m =>
      have hreg : registerOf (Event.req (.Broadcast m)) ++ regs = regs := rfl
      rw [hreg] at hmem hcl
      refine ⟨_, RunStep_Broadcast_ok h m (fun d hd => (hmem d hd).1), ?_, ?_⟩
      · intro d hd
        have hd' := (mem_keys_after_broadcast h d).mp hd
        refine ⟨?_, (hmem d hd'.1).2⟩
        simp [hd'.1, Chan.afterBroadcast, hd'.2, (hmem d hd'.1).1]
      · intro d hd
        by_cases hdk : d ∈ h.Clients.keys
        · exact (hmem d hdk).2
        · simp only [hdk, if_false] at hd
          exact hcl d hd

/-- Panic freedom of a run: from a state whose registered clients have open
queues, a run that registers no client twice, no client that is registered at
the start and no client whose queue is closed at the start, ends in a state. -/
theorem exec_no_panic (h : HubState) (evs : List Event)
    (hmem : ∀ d ∈ h.Clients.keys, (h.send d).closed = false ∧ d ∉ registeredIn evs)
    (hcl : ∀ d, (h.send d).closed = true → d ∉ registeredIn evs)
    (honce : (registeredIn evs).Nodup) :
    ∃ h', exec h evs = .ok h' := by
  induction evs generalizing h with
  | nil => exact ⟨h, rfl⟩
  | cons e es ih =>
    obtain ⟨h₁, hstep, hmem₁, hcl₁⟩ := step_no_panic h e (registeredIn es) hmem hcl honce
    have honce₁ : (registeredIn es).Nodup := (List.nodup_append.mp honce).2.1
    obtain ⟨h', hrun⟩ := ih h₁ hmem₁ hcl₁ honce₁
    exact ⟨h', by simp only [exec, hstep]; exact hrun⟩

/-! ## The membership invariant -/

/-- One event changes the membership of a client as the history tells. -/
theorem step_admitted (c : ClientPtr) (h h₁ : HubState) (e : Event)
    (hstep : step h e = .ok h₁) :
    (h₁.Clients.lookup c).isSome = admitStep c h (h.Clients.lookup c).isSome e := by
  cases e with
  | drain d =>
    simp only [step, Except.ok.injEq] at hstep
    subst hstep
    rfl
  | req r =>
    cases r with
    | Register d =>
      simp only [step, RunStep, Except.ok.injEq] at hstep
      subst hstep
      by_cases hdc : d = c
      · subst hdc
        simp [admitStep, AList.lookup_insert]
      · have hcd : c ≠ d := fun e => hdc e.symm
        simp [admitStep, hdc, AList.lookup_insert_ne hcd]
    | Unregister d =>
      simp only [step] at hstep
      by_cases hd : d ∈ h.Clients.keys
      · by_cases hcl : (h.send d).closed = true
        · rw [RunStep_Unregister_closed h d hd hcl] at hstep
          cases hstep
        · have hopen : (h.send d).closed = false := by simpa using hcl
          rw [RunStep_Unregister_member h d hd hopen] at hstep
          cases hstep
          by_cases hdc : d = c
          · subst hdc
            simp [admitStep, AList.lookup_erase]
          · have hcd : c ≠ d := fun e => hdc e.symm
            simp [admitStep, hdc, AList.lookup_erase_ne hcd]
      · have hnone := (not_mem_keys_iff_lookup_none _ _).mp hd
        rw [RunStep_Unregister_absent h d hnone] at hstep
        cases hstep
        by_cases hdc : d = c
        · subst hdc
          simp [admitStep, hnone]
        · simp [admitStep, hdc]
    | Broadcast m =>
      simp only [step] at hstep
      have hopen := broadcastLoop_ok_open m h.Clients.keys h h₁ h.Clients.keys_nodup hstep
      rw [RunStep_Broadcast_ok h m hopen] at hstep
      cases hstep
      simp only [admitStep, lookup_eraseAll, List.mem_filter]
      by_cases hc : c ∈ h.Clients.keys
      · have hsome := (lookup_isSome_iff_mem_keys _ _).mpr hc
        by_cases hf : (h.send c).isFull = true
        · simp [hc, hf]
        · simp [hc, hf, hsome]
      · have hnone := (not_mem_keys_iff_lookup_none _ _).mp hc
        simp [hc, hnone]

/-- At the end of a run the membership of a client is what the history tells. -/
theorem exec_admitted (c : ClientPtr) (h h' : HubState) (evs : List Event)
    (hrun : exec h evs = .ok h') :
    (h'.Clients.lookup c).isSome = admittedAfter c h (h.Clients.lookup c).isSome evs := by
  induction evs generalizing h with
  | nil =>
    simp only [exec, Except.ok.injEq] at hrun
    subst hrun
    rfl
  | cons e es ih =>
    cases hstep : step h e with
    | error p => simp [exec, hstep] at hrun
    | ok h₁ =>
      simp only [exec, hstep] at hrun
      simp only [admittedAfter, hstep]
      rw [ih h₁ hrun, step_admitted c h h₁ e hstep]

/-- C11: take a run of Register, Unregister and Broadcast steps (interleaved
or not with the write pumps taking frames) from a new hub, in which no client
is registered more than once.  In the state reached, a client is in Clients if
and only if it has been registered and has since been neither unregistered nor
dropped by a Broadcast step that found its queue full.  A state is reached (no
panic) when the queues are open at the start. -/
theorem clients_iff_registered_and_not_removed (send : ClientPtr → Chan) (evs : List Event)
    (honce : (registeredIn evs).Nodup) :
    (∀ h', exec (NewHub send) evs = .ok h' →
      ∀ c, c ∈ h'.Clients.keys ↔ admittedAfter c (NewHub send) false evs = true) ∧
    ((∀ c, (send c).closed = false) → ∃ h', exec (NewHub send) evs = .ok h') := by
  constructor
  · intro h' hrun c
    rw [← lookup_isSome_iff_mem_keys, exec_admitted c (NewHub send) h' evs hrun]
    simp [NewHub]
  · intro hopen
    apply exec_no_panic (NewHub send) evs
    · intro d hd
      simp [NewHub] at hd
    · intro d hd
      simp [NewHub, hopen d] at hd
    · exact honce

theorem clients_iff_registered_and_not_removed_witness :
    (registeredIn [.req (.Register 1), .req (.Broadcast "a"), .req (.Register 2),
      .req (.Broadcast "b"), .drain 2, .req (.Register 3), .req (.Broadcast "c"),
      .req (.Unregister 3)]).Nodup ∧
    (∀ c, (freshQueues 2 c).closed = false) ∧
    ∃ h', exec (NewHub (freshQueues 2)) [.req (.Register 1), .req (.Broadcast "a"),
        .req (.Register 2), .req (.Broadcast "b"), .drain 2, .req (.Register 3),
        .req (.Broadcast "c"), .req (.Unregister 3)] = .ok h' ∧
      ∀ c, c ∈ h'.Clients.keys ↔ admittedAfter c (NewHub (freshQueues 2)) false
        [.req (.Register 1), .req (.Broadcast "a"), .req (.Register 2),
          .req (.Broadcast "b"), .drain 2, .req (.Register 3), .req (.Broadcast "c"),
          .req (.Unregister 3)] = true :=
  ⟨by decide, fun _ => rfl,
    ((clients_iff_registered_and_not_removed (freshQueues 2) _ (by decide)).2
      (fun _ => rfl)).imp
      (fun h' hrun => ⟨hrun,
        (clients_iff_registered_and_not_removed (freshQueues 2) _ (by decide)).1 h' hrun⟩)⟩

/-! ## Bounded buffering -/

theorem recv_cap (ch : Chan) : ch.recv.2.cap = ch.cap := by
  unfold Chan.recv
  cases ch.buf <;> rfl

theorem recv_length_le (ch : Chan) : ch.recv.2.buf.length ≤ ch.buf.length := by
  unfold Chan.recv
  cases hbuf : ch.buf with
  | nil => simp [hbuf]
  | cons v rest => simp

theorem afterBroadcast_cap (m : Frame) (ch : Chan) : (ch.afterBroadcast m).cap = ch.cap := by
  unfold Chan.afterBroadcast
  split <;> rfl

theorem afterBroadcast_length_le (m : Frame) (ch : Chan) (hle : ch.buf.length ≤ ch.cap) :
    (ch.afterBroadcast m).buf.length ≤ ch.cap := by
  unfold Chan.afterBroadcast
  by_cases hf : ch.isFull = true
  · simp [hf, hle]
  · have hlt : ch.buf.length < ch.cap := by
      simp only [Chan.isFull, decide_eq_true_eq] at hf
      omega
    simp only [hf]
    simp only [Bool.false_eq_true, if_false, List.length_append, List.length_singleton]
    omega

/-- One event keeps the capacity of every queue and keeps every queue within
its capacity. -/
theorem step_bounded (h h₁ : HubState) (e : Event) (hstep : step h e = .ok h₁) (c : ClientPtr) :
    (h₁.send c).cap = (h.send c).cap ∧
      ((h.send c).buf.length ≤ (h.send c).cap → (h₁.send c).buf.length ≤ (h.send c).cap) := by
  cases e with
  | drain d =>
    simp only [step, Except.ok.injEq] at hstep
    subst hstep
    by_cases hcd : c = d
    · subst hcd
      simp only [Function.update_same]
      exact ⟨recv_cap _, fun hle => le_trans (recv_length_le _) hle⟩
    · simp [Function.update_noteq hcd]
  | req r =>
    cases r with
    | Register d =>
      simp only [step, RunStep, Except.ok.injEq] at hstep
      subst hstep
      exact ⟨rfl, fun hle => hle⟩
    | Unregister d =>
      simp only [step] at hstep
      by_cases hd : d ∈ h.Clients.keys
      · by_cases hcl : (h.send d).closed = true
        · rw [RunStep_Unregister_closed h d hd hcl] at hstep
          cases hstep
        · have hopen : (h.send d).closed = false := by simpa using hcl
          rw [RunStep_Unregister_member h d hd hopen] at hstep
          cases hstep
          by_cases hcd : c = d
          · subst hcd
            simp
          · simp [Function.update_noteq hcd]
      · rw [RunStep_Unregister_absent h d ((not_mem_keys_iff_lookup_none _ _).mp hd)] at hstep
        cases hstep
        exact ⟨rfl, fun hle => hle⟩
    | Broadcast m =>
      simp only [step] at hstep
      have hopen := broadcastLoop_ok_open m h.Clients.keys h h₁ h.Clients.keys_nodup hstep
      rw [RunStep_Broadcast_ok h m hopen] at hstep
      cases hstep
      by_cases hc : c ∈ h.Clients.keys
      · simp only [hc, if_true]
        exact ⟨afterBroadcast_cap m _, afterBroadcast_length_le m _⟩
      · simp [hc]

/-- C12: bounded buffering.  Fix a queue capacity C and start from a state in
which every queue has capacity C and holds at most C frames.  In every state
reached by Register, Unregister, Broadcast and drain steps every queue still
has capacity C and holds at most C frames, and a Broadcast step served in that
state leaves every queue with at most C frames. -/
theorem queues_never_exceed_capacity (C : Nat) (h h' : HubState) (evs : List Event)
    (hcap : ∀ c, (h.send c).cap = C) (hlen : ∀ c, (h.send c).buf.length ≤ C)
    (hrun : exec h evs = .ok h') :
    (∀ c, (h'.send c).cap = C ∧ (h'.send c).buf.length ≤ C) ∧
    ∀ m h'', RunStep h' (.Broadcast m) = .ok h'' → ∀ c, (h''.send c).buf.length ≤ C := by
  have hreach : ∀ c, (h'.send c).cap = C ∧ (h'.send c).buf.length ≤ C := by
    induction evs generalizing h with
    | nil =>
      simp only [exec, Except.ok.injEq] at hrun
      subst hrun
      exact fun c => ⟨hcap c, hlen c⟩
    | cons e es ih =>
      cases hstep : step h e with
      | error p => simp [exec, hstep] at hrun
      | ok h₁ =>
        simp only [exec, hstep] at hrun
        apply ih h₁ _ _ hrun
        · intro c
          rw [(step_bounded h h₁ e hstep c).1]
          exact hcap c
        · intro c
          have hb := (step_bounded h h₁ e hstep c).2
          rw [hcap c] at hb
          exact hb (hlen c)
  refine ⟨hreach, ?_⟩
  intro m h'' hstep c
  have hb := (step_bounded h' h'' (.req (.Broadcast m)) hstep c).2
  rw [(hreach c).1] at hb
  exact hb (hreach c).2

theorem queues_never_exceed_capacity_witness :
    (∀ c, (idleHub.send c).cap = 2) ∧ (∀ c, (idleHub.send c).buf.length ≤ 2) ∧
    ∃ h', exec idleHub [.req (.Broadcast "a"), .req (.Broadcast "b"), .drain 1,
        .req (.Broadcast "c"), .req (.Register 3), .req (.Broadcast "d")] = .ok h' ∧
      (∀ c, (h'.send c).cap = 2 ∧ (h'.send c).buf.length ≤ 2) ∧
      ∀ m h'', RunStep h' (.Broadcast m) = .ok h'' → ∀ c, (h''.send c).buf.length ≤ 2 :=
  ⟨fun _ => rfl, fun _ => Nat.zero_le 2,
    ⟨_, rfl, queues_never_exceed_capacity 2 idleHub _
      [.req (.Broadcast "a"), .req (.Broadcast "b"), .drain 1,
        .req (.Broadcast "c"), .req (.Register 3), .req (.Broadcast "d")]
      (fun _ => rfl) (fun _ => Nat.zero_le 2) rfl⟩⟩

/-! ## Scenarios -/

/-- C14: queue capacity 2, a hub whose only client P has an empty queue that is
never drained.  Two Broadcast steps fill the queue of P; the third finds it
full, so that after it P is not in Clients and its queue is closed, still
holding the first two frames.  A fourth Broadcast step changes nothing at all:
it leaves the whole state, the queue of P included, as it is. -/
theorem slow_client_dropped_at_third_broadcast (P : ClientPtr) (send : ClientPtr → Chan)
    (m₁ m₂ m₃ m₄ : Frame) :
    (∃ h₂, exec (soleClientHub P send) [.req (.Broadcast m₁), .req (.Broadcast m₂)] = .ok h₂ ∧
      P ∈ h₂.Clients.keys ∧ h₂.send P = { buf := [m₁, m₂], cap := 2, closed := false }) ∧
    ∃ h₃, exec (soleClientHub P send)
        [.req (.Broadcast m₁), .req (.Broadcast m₂), .req (.Broadcast m₃)] = .ok h₃ ∧
      P ∉ h₃.Clients.keys ∧
      h₃.send P = { buf := [m₁, m₂], cap := 2, closed := true } ∧
      RunStep h₃ (.Broadcast m₄) = .ok h₃ := by
  constructor
  · refine ⟨{ Clients := AList.singleton P true,
              send := Function.update send P { buf := [m₁, m₂], cap := 2, closed := false } },
      ?_, ?_, ?_⟩
    · simp [exec, step, RunStep, soleClientHub, broadcastLoop, broadcastTo, Chan.trySend]
    · simp
    · simp
  · refine ⟨{ Clients := (AList.singleton P true).erase P,
              send := Function.update send P { buf := [m₁, m₂], cap := 2, closed := true } },
      ?_, ?_, ?_, ?_⟩
    · simp [exec, step, RunStep, soleClientHub, broadcastLoop, broadcastTo, Chan.trySend,
        Chan.close]
    · simp [AList.keys_erase]
    · simp
    · simp [RunStep, AList.keys_erase, broadcastLoop]

/-! ## Runs in parts -/

theorem exec_append (h : HubState) (as bs : List Event) :
    exec h (as ++ bs) =
      match exec h as with
      | .error p => .error p
      | .ok h₁ => exec h₁ bs := by
  induction as generalizing h with
  | nil => rfl
  | cons a as ih =>
    simp only [List.cons_append, exec]
    cases step h a with
    | error p => rfl
    | ok h₁ => exact ih h₁

theorem drained_append (c : ClientPtr) (h h₁ : HubState) (as bs : List Event)
    (hrun : exec h as = .ok h₁) :
    drained c h (as ++ bs) = drained c h as ++ drained c h₁ bs := by
  induction as generalizing h with
  | nil =>
    simp only [exec, Except.ok.injEq] at hrun
    subst hrun
    simp [drained]
  | cons a as ih =>
    cases hstep : step h a with
    | error p => simp [exec, hstep] at hrun
    | ok h₂ =>
      simp only [exec, hstep] at hrun
      have hrest := ih h₂ hrun
      rw [List.cons_append]
      simp only [drained, hstep, List.append_assoc]
      rw [hrest]

theorem NoFullQueue_append (h h₁ : HubState) (as bs : List Event)
    (hrun : exec h as = .ok h₁) :
    NoFullQueue h (as ++ bs) = (NoFullQueue h as && NoFullQueue h₁ bs) := by
  induction as generalizing h with
  | nil =>
    simp only [exec, Except.ok.injEq] at hrun
    subst hrun
    simp [NoFullQueue]
  | cons a as ih =>
    cases hstep : step h a with
    | error p => simp [exec, hstep] at hrun
    | ok h₂ =>
      simp only [exec, hstep] at hrun
      have hrest := ih h₂ hrun
      rw [List.cons_append]
      simp only [NoFullQueue, hstep, Bool.and_assoc]
      rw [hrest]

theorem broadcastsOf_append (as bs : List Event) :
    broadcastsOf (as ++ bs) = broadcastsOf as ++ broadcastsOf bs := by
  induction as with
  | nil => rfl
  | cons a as ih => simp [broadcastsOf, ih]

theorem registeredIn_append (as bs : List Event) :
    registeredIn (as ++ bs) = registeredIn as ++ registeredIn bs := by
  induction as with
  | nil => rfl
  | cons a as ih => simp [registeredIn, ih]

theorem unregisteredIn_append (as bs : List Event) :
    unregisteredIn (as ++ bs) = unregisteredIn as ++ unregisteredIn bs := by
  induction as with
  | nil => rfl
  | cons a as ih => simp [unregisteredIn, ih]

theorem broadcastsOf_drains (cs : List ClientPtr) : broadcastsOf (drains cs) = [] := by
  induction cs with
  | nil => rfl
  | cons c cs ih => simpa [drains, broadcastsOf, broadcastOf] using ih

theorem registeredIn_drains (cs : List ClientPtr) : registeredIn (drains cs) = [] := by
  induction cs with
  | nil => rfl
  | cons c cs ih => simpa [drains, registeredIn, registerOf] using ih

theorem unregisteredIn_drains (cs : List ClientPtr) : unregisteredIn (drains cs) = [] := by
  induction cs with
  | nil => rfl
  | cons c cs ih => simpa [drains, unregisteredIn, unregisterOf] using ih

/-- A client that is registered before an event stays registered after it,
unless the event is its Unregister request or a Broadcast that finds a queue
full. -/
theorem step_keeps_member (c : ClientPtr) (h h₁ : HubState) (e : Event)
    (hstep : step h e = .ok h₁) (hroom : roomForBroadcast h e = true)
    (hin : c ∈ h.Clients.keys) (hnot : c ∉ unregisterOf e) : c ∈ h₁.Clients.keys := by
  rw [step_clients h h₁ e hstep hroom]
  cases e with
  | drain d => exact hin
  | req r =>
    cases r with
    | Register d =>
      simp only [memberStep, ← AList.mem_keys, AList.mem_insert]
      exact Or.inr (AList.mem_keys.mpr hin)
    | Unregister d =>
      have hcd : c ≠ d := by simpa [unregisterOf] using hnot
      simp only [memberStep, ← AList.mem_keys, AList.mem_erase]
      exact ⟨hcd, AList.mem_keys.mpr hin⟩
    | Broadcast m => exact hin

/-- A registered client in a run that ends in a state, in which no Broadcast
finds a queue full and the client is not unregistered: the client is still
registered at the end, and the frames taken from its queue followed by the
frames pending are the frames pending at the start followed by the Broadcast
messages of the run. -/
theorem exec_member_queue (c : ClientPtr) (h h' : HubState) (evs : List Event)
    (hrun : exec h evs = .ok h') (hroom : NoFullQueue h evs = true)
    (hin : c ∈ h.Clients.keys) (hnot : c ∉ unregisteredIn evs) :
    c ∈ h'.Clients.keys ∧
      drained c h evs ++ (h'.send c).buf = (h.send c).buf ++ broadcastsOf evs := by
  induction evs generalizing h with
  | nil =>
    simp only [exec, Except.ok.injEq] at hrun
    subst hrun
    exact ⟨hin, by simp [drained, broadcastsOf]⟩
  | cons e es ih =>
    simp only [NoFullQueue, Bool.and_eq_true] at hroom
    simp only [unregisteredIn, List.mem_append, not_or] at hnot
    cases hstep : step h e with
    | error p => simp [exec, hstep] at hrun
    | ok h₁ =>
      simp only [exec, hstep] at hrun
      simp only [hstep] at hroom
      have hin₁ := step_keeps_member c h h₁ e hstep hroom.1 hin hnot.1
      obtain ⟨hend, hrest⟩ := ih h₁ hrun hroom.2 hin₁ hnot.2
      refine ⟨hend, ?_⟩
      have hone := step_queue c h h₁ e hstep hin hin₁
      simp only [drained, hstep, broadcastsOf, List.append_assoc]
      rw [hrest, ← List.append_assoc, hone, List.append_assoc]

/-- One event that is not the Register request of a client that is not
registered: the client is still not registered, nothing is appended to its
queue and its queue is not closed by the event. -/
theorem step_absent (c : ClientPtr) (h h₁ : HubState) (e : Event)
    (hstep : step h e = .ok h₁) (hout : c ∉ h.Clients.keys) (hnot : c ∉ registerOf e) :
    c ∉ h₁.Clients.keys ∧ taken c h e ++ (h₁.send c).buf = (h.send c).buf ∧
      (h₁.send c).closed = (h.send c).closed := by
  cases e with
  | drain d =>
    simp only [step, Except.ok.injEq] at hstep
    subst hstep
    refine ⟨hout, ?_, ?_⟩
    · by_cases hdc : d = c
      · subst hdc
        cases hbuf : (h.send d).buf with
        | nil => simp [taken, Chan.recv, hbuf]
        | cons v rest => simp [taken, Chan.recv, hbuf]
      · have hcd : c ≠ d := fun e => hdc e.symm
        simp [taken, hdc, Function.update_noteq hcd]
    · by_cases hcd : c = d
      · subst hcd
        simp [recv_closed]
      · simp [Function.update_noteq hcd]
  | req r =>
    cases r with
    | Register d =>
      simp only [step, RunStep, Except.ok.injEq] at hstep
      subst hstep
      have hcd : c ≠ d := by simpa [registerOf] using hnot
      refine ⟨?_, by simp [taken], rfl⟩
      intro hmem
      have hmem' : c = d ∨ c ∈ h.Clients.keys := by
        simpa only [← AList.mem_keys, AList.mem_insert] using hmem
      rcases hmem' with heq | hk
      · exact hcd heq
      · exact hout hk
    | Unregister d =>
      simp only [step] at hstep
      by_cases hd : d ∈ h.Clients.keys
      · by_cases hcl : (h.send d).closed = true
        · rw [RunStep_Unregister_closed h d hd hcl] at hstep
          cases hstep
        · have hopen : (h.send d).closed = false := by simpa using hcl
          rw [RunStep_Unregister_member h d hd hopen] at hstep
          cases hstep
          have hcd : c ≠ d := fun e => hout (e ▸ hd)
          refine ⟨?_, by simp [taken, Function.update_noteq hcd],
            by simp [Function.update_noteq hcd]⟩
          intro hmem
          have hmem' : c ≠ d ∧ c ∈ h.Clients.keys := by
            simpa only [← AList.mem_keys, AList.mem_erase] using hmem
          exact hout hmem'.2
      · rw [RunStep_Unregister_absent h d ((not_mem_keys_iff_lookup_none _ _).mp hd)] at hstep
        cases hstep
        exact ⟨hout, by simp [taken], rfl⟩
    | Broadcast m =>
      simp only [step] at hstep
      have hopen := broadcastLoop_ok_open m h.Clients.keys h h₁ h.Clients.keys_nodup hstep
      rw [RunStep_Broadcast_ok h m hopen] at hstep
      cases hstep
      refine ⟨?_, by simp [taken, hout], by simp [hout]⟩
      intro hmem
      exact hout ((mem_keys_after_broadcast h c).mp hmem).1

/-- A client that is not registered, in a run that ends in a state and has no
Register request for it: it is not registered at the end, no frame has been
appended to its queue, and its queue has not been closed by the run. -/
theorem exec_absent (c : ClientPtr) (h h' : HubState) (evs : List Event)
    (hrun : exec h evs = .ok h') (hout : c ∉ h.Clients.keys) (hnot : c ∉ registeredIn evs) :
    c ∉ h'.Clients.keys ∧ drained c h evs ++ (h'.send c).buf = (h.send c).buf ∧
      (h'.send c).closed = (h.send c).closed := by
  induction evs generalizing h with
  | nil =>
    simp only [exec, Except.ok.injEq] at hrun
    subst hrun
    exact ⟨hout, by simp [drained], rfl⟩
  | cons e es ih =>
    simp only [registeredIn, List.mem_append, not_or] at hnot
    cases hstep : step h e with
    | error p => simp [exec, hstep] at hrun
    | ok h₁ =>
      simp only [exec, hstep] at hrun
      obtain ⟨hout₁, hone, hflag⟩ := step_absent c h h₁ e hstep hout hnot.1
      obtain ⟨hend, hrest, hflag'⟩ := ih h₁ hrun hout₁ hnot.2
      refine ⟨hend, ?_, by rw [hflag', hflag]⟩
      simp only [drained, hstep, List.append_assoc]
      rw [hrest, hone]

/-- C15: two registered clients P₁ and P₂ in a hub whose registered clients
have open queues, and a run in which the hub serves Broadcast e₁, Broadcast e₂,
the Unregister request for P₁ (sent after its write failure) and Broadcast e₃
in this order, the write pumps taking frames in between, no Broadcast finding
a queue full.  The run ends without panic.  P₁ is out of Clients once its
Unregister request is served, before e₃ is broadcast, and stays out; its queue
has received e₁ and e₂ and never e₃.  P₂ is in Clients at the end and its queue
has received e₁, e₂, e₃ in this order. -/
theorem write_failure_removes_only_that_client (h : HubState) (P₁ P₂ : ClientPtr)
    (e₁ e₂ e₃ : Frame) (ds₁ ds₂ ds₃ : List ClientPtr)
    (hopen : ∀ c ∈ h.Clients.keys, (h.send c).closed = false)
    (hP₁ : P₁ ∈ h.Clients.keys) (hP₂ : P₂ ∈ h.Clients.keys) (hne : P₁ ≠ P₂)
    (hroom : NoFullQueue h (writeFailureRun P₁ e₁ e₂ e₃ ds₁ ds₂ ds₃) = true) :
    ∃ h₂ h',
      exec h ([Event.req (.Broadcast e₁)] ++ drains ds₁ ++ [Event.req (.Broadcast e₂)]
        ++ drains ds₂ ++ [Event.req (.Unregister P₁)]) = .ok h₂ ∧
      exec h₂ (drains ds₃ ++ [Event.req (.Broadcast e₃)]) = .ok h' ∧
      exec h (writeFailureRun P₁ e₁ e₂ e₃ ds₁ ds₂ ds₃) = .ok h' ∧
      P₁ ∉ h₂.Clients.keys ∧ P₁ ∉ h'.Clients.keys ∧
      drained P₁ h (writeFailureRun P₁ e₁ e₂ e₃ ds₁ ds₂ ds₃) ++ (h'.send P₁).buf
        = (h.send P₁).buf ++ [e₁, e₂] ∧
      P₂ ∈ h'.Clients.keys ∧
      drained P₂ h (writeFailureRun P₁ e₁ e₂ e₃ ds₁ ds₂ ds₃) ++ (h'.send P₂).buf
        = (h.send P₂).buf ++ [e₁, e₂, e₃] := by
  have hregs : registeredIn (writeFailureRun P₁ e₁ e₂ e₃ ds₁ ds₂ ds₃) = [] := by
    simp [writeFailureRun, registeredIn_append, registeredIn_drains, registeredIn, registerOf]
  have hunregs : unregisteredIn (writeFailureRun P₁ e₁ e₂ e₃ ds₁ ds₂ ds₃) = [P₁] := by
    simp [writeFailureRun, unregisteredIn_append, unregisteredIn_drains, unregisteredIn,
      unregisterOf]
  have hcasts : broadcastsOf (writeFailureRun P₁ e₁ e₂ e₃ ds₁ ds₂ ds₃) = [e₁, e₂, e₃] := by
    simp [writeFailureRun, broadcastsOf_append, broadcastsOf_drains, broadcastsOf, broadcastOf]
  obtain ⟨h', hrun⟩ := exec_no_panic h (writeFailureRun P₁ e₁ e₂ e₃ ds₁ ds₂ ds₃)
    (by rw [hregs]; exact fun d hd => ⟨hopen d hd, List.not_mem_nil d⟩)
    (by rw [hregs]; exact fun d _ => List.not_mem_nil d)
    (by rw [hregs]; exact List.nodup_nil)
  -- the run in its three parts
  have hsplit : writeFailureRun P₁ e₁ e₂ e₃ ds₁ ds₂ ds₃ =
      (([Event.req (.Broadcast e₁)] ++ drains ds₁ ++ [Event.req (.Broadcast e₂)] ++ drains ds₂)
        ++ [Event.req (.Unregister P₁)]) ++ (drains ds₃ ++ [Event.req (.Broadcast e₃)]) := rfl
  obtain ⟨h₂, hrun₂⟩ : ∃ h₂, exec h (([Event.req (.Broadcast e₁)] ++ drains ds₁
      ++ [Event.req (.Broadcast e₂)] ++ drains ds₂) ++ [Event.req (.Unregister P₁)])
      = .ok h₂ := by
    cases hc : exec h (([Event.req (.Broadcast e₁)] ++ drains ds₁
        ++ [Event.req (.Broadcast e₂)] ++ drains ds₂) ++ [Event.req (.Unregister P₁)]) with
    | error p =>
      rw [hsplit, exec_append, hc] at hrun
      cases hrun
    | ok h₂ => exact ⟨h₂, rfl⟩
  have hpost : exec h₂ (drains ds₃ ++ [Event.req (.Broadcast e₃)]) = .ok h' := by
    rw [hsplit, exec_append, hrun₂] at hrun
    exact hrun
  obtain ⟨h₁, hrun₁⟩ : ∃ h₁, exec h ([Event.req (.Broadcast e₁)] ++ drains ds₁
      ++ [Event.req (.Broadcast e₂)] ++ drains ds₂) = .ok h₁ := by
    cases hc : exec h ([Event.req (.Broadcast e₁)] ++ drains ds₁
        ++ [Event.req (.Broadcast e₂)] ++ drains ds₂) with
    | error p =>
      rw [exec_append, hc] at hrun₂
      cases hrun₂
    | ok h₁ => exact ⟨h₁, rfl⟩
  have hunreg : step h₁ (.req (.Unregister P₁)) = .ok h₂ := by
    rw [exec_append, hrun₁] at hrun₂
    simp only [exec] at hrun₂
    cases hstep : step h₁ (.req (.Unregister P₁)) with
    | error p => simp [hstep] at hrun₂
    | ok h₂' =>
      simp only [hstep, Except.ok.injEq] at hrun₂
      rw [hrun₂]
  -- no queue is full in the first part
  have hroom₁ : NoFullQueue h ([Event.req (.Broadcast e₁)] ++ drains ds₁
      ++ [Event.req (.Broadcast e₂)] ++ drains ds₂) = true := by
    have hroom' := hroom
    rw [hsplit, List.append_assoc, NoFullQueue_append h h₁ _ _ hrun₁,
      Bool.and_eq_true] at hroom'
    exact hroom'.1
  -- the first client up to its Unregister request
  obtain ⟨hin₁, hq₁⟩ := exec_member_queue P₁ h h₁ _ hrun₁ hroom₁ hP₁
    (by simp [unregisteredIn_append, unregisteredIn_drains, unregisteredIn, unregisterOf])
  have hcasts₁ : broadcastsOf ([Event.req (.Broadcast e₁)] ++ drains ds₁
      ++ [Event.req (.Broadcast e₂)] ++ drains ds₂) = [e₁, e₂] := by
    simp [broadcastsOf_append, broadcastsOf_drains, broadcastsOf, broadcastOf]
  rw [hcasts₁] at hq₁
  -- its Unregister request
  have hgone : P₁ ∉ h₂.Clients.keys ∧ (h₂.send P₁).buf = (h₁.send P₁).buf := by
    simp only [step] at hunreg
    by_cases hcl : (h₁.send P₁).closed = true
    · rw [RunStep_Unregister_closed h₁ P₁ hin₁ hcl] at hunreg
      cases hunreg
    · have hop : (h₁.send P₁).closed = false := by simpa using hcl
      rw [RunStep_Unregister_member h₁ P₁ hin₁ hop] at hunreg
      cases hunreg
      refine ⟨?_, by simp⟩
      intro hmem
      have hlk := (lookup_isSome_iff_mem_keys _ _).mpr hmem
      simp [AList.lookup_erase] at hlk
  -- and after it
  obtain ⟨hout', hq₃, _⟩ := exec_absent P₁ h₂ h' _ hpost hgone.1
    (by simp [registeredIn_append, registeredIn_drains, registeredIn, registerOf])
  -- the second client over the whole run
  obtain ⟨hin₂, hq₂⟩ := exec_member_queue P₂ h h' _ hrun hroom hP₂
    (by rw [hunregs]; simpa using fun e => hne e.symm)
  rw [hcasts] at hq₂
  refine ⟨h₂, h', hrun₂, hpost, hrun, hgone.1, hout', ?_, hin₂, hq₂⟩
  have hd₂ : drained P₁ h (([Event.req (.Broadcast e₁)] ++ drains ds₁
        ++ [Event.req (.Broadcast e₂)] ++ drains ds₂) ++ [Event.req (.Unregister P₁)])
      = drained P₁ h ([Event.req (.Broadcast e₁)] ++ drains ds₁
        ++ [Event.req (.Broadcast e₂)] ++ drains ds₂) := by
    rw [drained_append P₁ h h₁ _ _ hrun₁]
    simp [drained, taken, hunreg]
  rw [hsplit, drained_append P₁ h h₂ _ _ hrun₂, hd₂, List.append_assoc, hq₃, hgone.2, hq₁]

theorem write_failure_removes_only_that_client_witness :
    (∀ c ∈ idleHub.Clients.keys, (idleHub.send c).closed = false) ∧
    1 ∈ idleHub.Clients.keys ∧ 2 ∈ idleHub.Clients.keys ∧
    NoFullQueue idleHub (writeFailureRun 1 "e1" "e2" "e3" [1, 2] [1] [2]) = true ∧
    ∃ h₂ h',
      exec idleHub ([Event.req (.Broadcast "e1")] ++ drains [1, 2]
        ++ [Event.req (.Broadcast "e2")] ++ drains [1] ++ [Event.req (.Unregister 1)])
        = .ok h₂ ∧
      exec h₂ (drains [2] ++ [Event.req (.Broadcast "e3")]) = .ok h' ∧
      exec idleHub (writeFailureRun 1 "e1" "e2" "e3" [1, 2] [1] [2]) = .ok h' ∧
      1 ∉ h₂.Clients.keys ∧ 1 ∉ h'.Clients.keys ∧
      drained 1 idleHub (writeFailureRun 1 "e1" "e2" "e3" [1, 2] [1] [2]) ++ (h'.send 1).buf
        = (idleHub.send 1).buf ++ ["e1", "e2"] ∧
      2 ∈ h'.Clients.keys ∧
      drained 2 idleHub (writeFailureRun 1 "e1" "e2" "e3" [1, 2] [1] [2]) ++ (h'.send 2).buf
        = (idleHub.send 2).buf ++ ["e1", "e2", "e3"] :=
  ⟨by decide, by decide, by decide, by decide,
    write_failure_removes_only_that_client idleHub 1 2 "e1" "e2" "e3" [1, 2] [1] [2]
      (by decide) (by decide) (by decide) (by decide) (by decide)⟩

/-! ## Content of the frame, removal after a drop, no replay -/

/-- C17: the hub is oblivious to the content of the message.  For every hub
state and two messages m₁ and m₂, the Broadcast steps with m₁ and with m₂
either both panic in the same way (a registered client has a closed queue), or
both succeed with the same Clients map and the same receivers: the registered
clients whose queue is not full get m₁ appended in one result and m₂ in the
other, and every other queue is the same in both results. -/
theorem broadcast_ignores_message_content (h : HubState) (m₁ m₂ : Frame) :
    (RunStep h (.Broadcast m₁) = .error Panic.sendOnClosedChannel ∧
      RunStep h (.Broadcast m₂) = .error Panic.sendOnClosedChannel) ∨
    ∃ h₁ h₂, RunStep h (.Broadcast m₁) = .ok h₁ ∧ RunStep h (.Broadcast m₂) = .ok h₂ ∧
      h₁.Clients = h₂.Clients ∧
      ∀ c, (c ∈ h.Clients.keys ∧ (h.send c).isFull = false ∧
            h₁.send c = { h.send c with buf := (h.send c).buf ++ [m₁] } ∧
            h₂.send c = { h.send c with buf := (h.send c).buf ++ [m₂] }) ∨
          (¬ (c ∈ h.Clients.keys ∧ (h.send c).isFull = false) ∧ h₁.send c = h₂.send c) := by
  by_cases hcl : ∃ c ∈ h.Clients.keys, (h.send c).closed = true
  · left
    exact ⟨broadcastLoop_panic m₁ _ h h.Clients.keys_nodup hcl,
      broadcastLoop_panic m₂ _ h h.Clients.keys_nodup hcl⟩
  · right
    have hopen : ∀ c ∈ h.Clients.keys, (h.send c).closed = false := by
      intro c hc
      by_contra hne
      exact hcl ⟨c, hc, by simpa using hne⟩
    refine ⟨_, _, RunStep_Broadcast_ok h m₁ hopen, RunStep_Broadcast_ok h m₂ hopen, rfl, ?_⟩
    intro c
    by_cases hc : c ∈ h.Clients.keys
    · by_cases hf : (h.send c).isFull = true
      · right
        exact ⟨by simp [hf], by simp [hc, Chan.afterBroadcast, hf]⟩
      · left
        have hf' : (h.send c).isFull = false := by simpa using hf
        exact ⟨hc, hf', by simp [hc, Chan.afterBroadcast, hf'],
          by simp [hc, Chan.afterBroadcast, hf']⟩
    · right
      exact ⟨by simp [hc], by simp [hc]⟩

/-- C18: removal is idempotent across its triggers.  When a Broadcast step has
just dropped the registered client p because its queue was full, p is not in
Clients and its queue is closed, and a following Unregister step for p ends
without error in the very same state: in particular it does not close the
queue of p again. -/
theorem unregister_after_drop_changes_nothing (h h₁ : HubState) (m : Frame) (p : ClientPtr)
    (hstep : RunStep h (.Broadcast m) = .ok h₁)
    (hp : p ∈ h.Clients.keys) (hfull : (h.send p).cap ≤ (h.send p).buf.length) :
    p ∉ h₁.Clients.keys ∧ (h₁.send p).closed = true ∧
      RunStep h₁ (.Unregister p) = .ok h₁ := by
  have hopen := broadcastLoop_ok_open m h.Clients.keys h h₁ h.Clients.keys_nodup hstep
  rw [RunStep_Broadcast_ok h m hopen] at hstep
  cases hstep
  have hpf : (h.send p).isFull = true := by simp [Chan.isFull, hfull]
  have hgone : p ∉ (eraseAll (h.Clients.keys.filter (fun d => (h.send d).isFull))
      h.Clients).keys := by
    intro hmem
    have := ((mem_keys_after_broadcast h p).mp hmem).2
    rw [hpf] at this
    cases this
  refine ⟨hgone, by simp [hp, Chan.afterBroadcast, hpf], ?_⟩
  exact RunStep_Unregister_absent _ p ((not_mem_keys_iff_lookup_none _ _).mp hgone)

theorem unregister_after_drop_changes_nothing_witness :
    ∃ h₁, RunStep busyHub (.Broadcast "m") = .ok h₁ ∧
      2 ∈ busyHub.Clients.keys ∧ (busyHub.send 2).cap ≤ (busyHub.send 2).buf.length ∧
      2 ∉ h₁.Clients.keys ∧ (h₁.send 2).closed = true ∧
      RunStep h₁ (.Unregister 2) = .ok h₁ :=
  ⟨_, RunStep_Broadcast_ok busyHub "m" (by decide), by decide, by decide,
    unregister_after_drop_changes_nothing busyHub _ "m" 2
      (RunStep_Broadcast_ok busyHub "m" (by decide)) (by decide) (by decide)⟩

/-- A run during which the client stays registered ends in a state. -/
theorem StaysIn_exec (c : ClientPtr) (h : HubState) (evs : List Event)
    (hstay : StaysIn c h evs = true) : ∃ h', exec h evs = .ok h' := by
  induction evs generalizing h with
  | nil => exact ⟨h, rfl⟩
  | cons e es ih =>
    simp only [StaysIn, Bool.and_eq_true] at hstay
    cases hstep : step h e with
    | error p => simp [hstep] at hstay
    | ok h₁ =>
      simp only [hstep] at hstay
      obtain ⟨h', hrun⟩ := ih h₁ hstay.2
      exact ⟨h', by simp only [exec, hstep]; exact hrun⟩

/-- The queue of a client over a run that ends in a state and during which the
client stays registered. -/
theorem exec_queue (c : ClientPtr) (h h' : HubState) (evs : List Event)
    (hrun : exec h evs = .ok h') (hstay : StaysIn c h evs = true) :
    drained c h evs ++ (h'.send c).buf = (h.send c).buf ++ broadcastsOf evs := by
  induction evs generalizing h with
  | nil =>
    simp only [exec, Except.ok.injEq] at hrun
    subst hrun
    simp [drained, broadcastsOf]
  | cons e es ih =>
    have hin := StaysIn_head c h _ hstay
    simp only [StaysIn, Bool.and_eq_true] at hstay
    cases hstep : step h e with
    | error p => simp [exec, hstep] at hrun
    | ok h₁ =>
      simp only [hstep] at hstay
      simp only [exec, hstep] at hrun
      have hone := step_queue c h h₁ e hstep hin (StaysIn_head c h₁ es hstay.2)
      have hrest := ih h₁ hrun hstay.2
      simp only [drained, hstep, broadcastsOf, List.append_assoc]
      rw [hrest, ← List.append_assoc, hone, List.append_assoc]

/-- C20: no event history is replayed.  Take a client c that is not in Clients
and has an empty queue, and any earlier run in which c is not registered:
whatever was broadcast in it, c is still not in Clients and its queue is still
empty, nothing having been taken from it.  The Register step for c then leaves
the queue of c empty, and in every later run during which c stays in Clients,
the frames that reach the queue of c (those taken from it followed by those
still pending) are exactly the messages of the Broadcast steps served after the
registration, in order. -/
theorem no_history_replayed (h₀ h : HubState) (c : ClientPtr) (before : List Event)
    (hout : c ∉ h₀.Clients.keys) (hempty : (h₀.send c).buf = [])
    (hnot : c ∉ registeredIn before) (hrun : exec h₀ before = .ok h) :
    c ∉ h.Clients.keys ∧ (h.send c).buf = [] ∧ drained c h₀ before = [] ∧
    ∃ h₁, RunStep h (.Register c) = .ok h₁ ∧ c ∈ h₁.Clients.keys ∧ (h₁.send c).buf = [] ∧
      ∀ after, StaysIn c h₁ after = true →
        ∃ h', exec h₁ after = .ok h' ∧
          drained c h₁ after ++ (h'.send c).buf = broadcastsOf after := by
  obtain ⟨hout', hq, _⟩ := exec_absent c h₀ h before hrun hout hnot
  rw [hempty] at hq
  have hparts := List.append_eq_nil.mp hq
  refine ⟨hout', hparts.2, hparts.1, { h with Clients := h.Clients.insert c true }, rfl, ?_,
    hparts.2, ?_⟩
  · have hmem : c ∈ h.Clients.insert c true := (AList.mem_insert h.Clients).mpr (Or.inl rfl)
    exact AList.mem_keys.mp hmem
  · intro after hstay
    obtain ⟨h', hrun'⟩ := StaysIn_exec c _ after hstay
    refine ⟨h', hrun', ?_⟩
    have hfifo := exec_queue c _ h' after hrun' hstay
    simpa [hparts.2] using hfifo

theorem no_history_replayed_witness :
    3 ∉ idleHub.Clients.keys ∧ (idleHub.send 3).buf = [] ∧
    3 ∉ registeredIn [.req (.Broadcast "old"), .drain 1, .req (.Broadcast "older")] ∧
    ∃ h, exec idleHub [.req (.Broadcast "old"), .drain 1, .req (.Broadcast "older")] = .ok h ∧
      3 ∉ h.Clients.keys ∧ (h.send 3).buf = [] ∧
      drained 3 idleHub [.req (.Broadcast "old"), .drain 1, .req (.Broadcast "older")] = [] ∧
      ∃ h₁, RunStep h (.Register 3) = .ok h₁ ∧ 3 ∈ h₁.Clients.keys ∧ (h₁.send 3).buf = [] ∧
        ∀ after, StaysIn 3 h₁ after = true →
          ∃ h', exec h₁ after = .ok h' ∧
            drained 3 h₁ after ++ (h'.send 3).buf = broadcastsOf after :=
  ⟨by decide, rfl, by decide, _, rfl,
    no_history_replayed idleHub _ 3
      [.req (.Broadcast "old"), .drain 1, .req (.Broadcast "older")]
      (by decide) rfl (by decide) rfl⟩

/-! ## Claims on the handlers -/

/-- C13, as the code has it: the kinds that the handlers pass to
BroadcastMessage are new_file after a successful file upload, with the
uploaded file entity as payload; file_deleted after a successful file
deletion, with a map holding only the id of the deleted file as payload; and
folder_created after a successful folder creation, with the folder entity as
payload.  Each handler makes exactly this one call. -/
theorem handlers_broadcast_their_kinds :
    (∀ (svc : FileHeader → String → String → Except String UploadedFile) (r : UploadForm)
        (hdr : FileHeader) (f : UploadedFile),
      r.parseError = none → r.folder_id ≠ "" → r.folder_name ≠ "" → r.file = .ok hdr →
      svc hdr r.folder_id r.folder_name = .ok f →
      (FileHandler.UploadFile svc r).broadcasts = [("new_file", f.toGoValue)]) ∧
    (∀ (svc : String → Option String) (fileID : String),
      svc fileID = none →
      (FileHandler.DeleteFile svc fileID).broadcasts
        = [("file_deleted", GoValue.map [("id", GoValue.string fileID)])]) ∧
    (∀ (svc : String → Except String Folder) (name : String) (f : Folder),
      name ≠ "" → svc name = .ok f →
      (FolderHandler.CreateFolder svc (.ok name)).broadcasts
        = [("folder_created", f.toGoValue)]) := by
  refine ⟨?_, ?_, ?_⟩
  · intro svc r hdr f hparse hid hname hfile hsvc
    simp [FileHandler.UploadFile, hparse, hid, hname, hfile, hsvc]
  · intro svc fileID hsvc
    simp [FileHandler.DeleteFile, hsvc]
  · intro svc name f hname hsvc
    simp [FolderHandler.CreateFolder, hname, hsvc]

theorem handlers_broadcast_their_kinds_witness :
    (FileHandler.UploadFile (fun _ _ _ => .ok sampleFile) sampleForm).broadcasts
      = [("new_file", sampleFile.toGoValue)] ∧
    (FileHandler.DeleteFile (fun _ => none) "42").broadcasts
      = [("file_deleted", GoValue.map [("id", GoValue.string "42")])] ∧
    (FolderHandler.CreateFolder (fun _ => .ok sampleFolder) (.ok "Invoices")).broadcasts
      = [("folder_created", sampleFolder.toGoValue)] :=
  ⟨handlers_broadcast_their_kinds.1 (fun _ _ _ => .ok sampleFile) sampleForm
      { Filename := "a.pdf", Size := 10 } sampleFile rfl (by decide) (by decide) rfl rfl,
    handlers_broadcast_their_kinds.2.1 (fun _ => none) "42" rfl,
    handlers_broadcast_their_kinds.2.2 (fun _ => .ok sampleFolder) "Invoices" sampleFolder
      (by decide) rfl⟩

/-- C13 as stated fails: after a successful upload, deletion and folder
creation the handlers call BroadcastMessage with the kinds new_file,
file_deleted and folder_created, none of which is the kind file-created,
file-deleted or folder-created of the claim. -/
theorem handler_kinds_counterexample :
    (FileHandler.UploadFile (fun _ _ _ => .ok sampleFile) sampleForm).broadcasts.map Prod.fst
      = ["new_file"] ∧
    (FileHandler.DeleteFile (fun _ => none) "42").broadcasts.map Prod.fst = ["file_deleted"] ∧
    (FolderHandler.CreateFolder (fun _ => .ok sampleFolder) (.ok "Invoices")).broadcasts.map
      Prod.fst = ["folder_created"] ∧
    "new_file" ≠ "file-created" ∧ "file_deleted" ≠ "file-deleted" ∧
    "folder_created" ≠ "folder-created" := by
  decide

/-- C19: the handlers broadcast only after a successful mutation.  The upload
handler makes no call of BroadcastMessage when the form does not parse, when
the folder id or the folder name is missing, when the file is missing, or when
FileService.UploadFile returns an error; the delete handler makes none when
FileService.DeleteFile returns an error; the folder handler makes none when the
body does not decode, when the folder name is empty, or when
FolderService.CreateFolder returns an error. -/
theorem no_broadcast_without_success :
    (∀ (svc : FileHeader → String → String → Except String UploadedFile) (r : UploadForm),
      (r.parseError.isSome = true ∨ r.folder_id = "" ∨ r.folder_name = "" ∨
        (∃ e, r.file = .error e) ∨
        (∃ hdr e, r.file = .ok hdr ∧ svc hdr r.folder_id r.folder_name = .error e)) →
      (FileHandler.UploadFile svc r).broadcasts = []) ∧
    (∀ (svc : String → Option String) (fileID e : String),
      svc fileID = some e → (FileHandler.DeleteFile svc fileID).broadcasts = []) ∧
    (∀ (svc : String → Except String Folder) (decoded : Except String String),
      ((∃ e, decoded = .error e) ∨ decoded = .ok "" ∨
        (∃ name e, decoded = .ok name ∧ svc name = .error e)) →
      (FolderHandler.CreateFolder svc decoded).broadcasts = []) := by
  refine ⟨?_, ?_, ?_⟩
  · intro svc r hfail
    unfold FileHandler.UploadFile
    cases hparse : r.parseError with
    | some e => rfl
    | none =>
      simp only [hparse, Option.isSome_none, Bool.false_eq_true, false_or] at hfail
      by_cases hreq : r.folder_id = "" ∨ r.folder_name = ""
      · simp [hreq, httpError]
      · simp only [hreq, if_false]
        rcases hfail with hid | hname | ⟨e, hfile⟩ | ⟨hdr, e, hfile, hsvc⟩
        · exact absurd (Or.inl hid) hreq
        · exact absurd (Or.inr hname) hreq
        · simp [hfile, httpError]
        · simp [hfile, hsvc, httpError]
  · intro svc fileID e hsvc
    simp [FileHandler.DeleteFile, hsvc, httpError]
  · intro svc decoded hfail
    rcases hfail with ⟨e, hdec⟩ | hdec | ⟨name, e, hdec, hsvc⟩
    · simp [FolderHandler.CreateFolder, hdec, httpError]
    · simp [FolderHandler.CreateFolder, hdec, httpError]
    · by_cases hname : name = ""
      · simp [FolderHandler.CreateFolder, hdec, hname, httpError]
      · simp [FolderHandler.CreateFolder, hdec, hname, hsvc, httpError]

theorem no_broadcast_without_success_witness :
    (FileHandler.UploadFile (fun _ _ _ => .ok sampleFile)
        { sampleForm with folder_name := "" }).broadcasts = [] ∧
    (FileHandler.UploadFile (fun _ _ _ => .error "file type not allowed")
        sampleForm).broadcasts = [] ∧
    (FileHandler.DeleteFile (fun _ => some "file not found") "42").broadcasts = [] ∧
    (FolderHandler.CreateFolder (fun _ => .ok sampleFolder) (.ok "")).broadcasts = [] ∧
    (FolderHandler.CreateFolder (fun _ => .error "duplicate key") (.ok "Invoices")).broadcasts
      = [] :=
  ⟨no_broadcast_without_success.1 (fun _ _ _ => .ok sampleFile)
      { sampleForm with folder_name := "" } (Or.inr (Or.inr (Or.inl rfl))),
    no_broadcast_without_success.1 (fun _ _ _ => .error "file type not allowed") sampleForm
      (Or.inr (Or.inr (Or.inr (Or.inr ⟨{ Filename := "a.pdf", Size := 10 },
        "file type not allowed", rfl, rfl⟩)))),
    no_broadcast_without_success.2.1 (fun _ => some "file not found") "42" "file not found" rfl,
    no_broadcast_without_success.2.2 (fun _ => .ok sampleFolder) (.ok "") (Or.inr (Or.inl rfl)),
    no_broadcast_without_success.2.2 (fun _ => .error "duplicate key") (.ok "Invoices")
      (Or.inr (Or.inr ⟨"Invoices", "duplicate key", rfl, rfl⟩))⟩

/-! ## Panic freedom -/

/-- A run as in `exec_no_panic` ends in a state whose registered clients have
open queues. -/
theorem exec_members_open (h : HubState) (evs : List Event)
    (hmem : ∀ d ∈ h.Clients.keys, (h.send d).closed = false ∧ d ∉ registeredIn evs)
    (hcl : ∀ d, (h.send d).closed = true → d ∉ registeredIn evs)
    (honce : (registeredIn evs).Nodup) :
    ∃ h', exec h evs = .ok h' ∧ ∀ d ∈ h'.Clients.keys, (h'.send d).closed = false := by
  induction evs generalizing h with
  | nil => exact ⟨h, rfl, fun d hd => (hmem d hd).1⟩
  | cons e es ih =>
    obtain ⟨h₁, hstep, hmem₁, hcl₁⟩ := step_no_panic h e (registeredIn es) hmem hcl honce
    have honce₁ : (registeredIn es).Nodup := (List.nodup_append.mp honce).2.1
    obtain ⟨h', hrun, hopen'⟩ := ih h₁ hmem₁ hcl₁ honce₁
    exact ⟨h', by simp only [exec, hstep]; exact hrun, hopen'⟩

/-- C21: panic freedom of the hub loop.  Take a run of Register, Unregister
and Broadcast steps (interleaved or not with the write pumps taking frames)
from a new hub, in which every client is registered at most once and the
queues are open when the clients are created.  No step of the run panics, and
in the state reached every client in Clients has an open send queue.  Hence a
Broadcast step served in that state does not send on a closed queue, and an
Unregister step served in that state does not close a closed queue: both end
without panic. -/
theorem registered_clients_have_open_queues (send : ClientPtr → Chan) (evs : List Event)
    (hopen : ∀ c, (send c).closed = false) (honce : (registeredIn evs).Nodup) :
    ∃ h', exec (NewHub send) evs = .ok h' ∧
      (∀ c ∈ h'.Clients.keys, (h'.send c).closed = false) ∧
      (∀ m, ∃ h'', RunStep h' (.Broadcast m) = .ok h'') ∧
      (∀ c, ∃ h'', RunStep h' (.Unregister c) = .ok h'') := by
  obtain ⟨h', hrun, hopen'⟩ := exec_members_open (NewHub send) evs
    (by
      intro d hd
      simp [NewHub] at hd)
    (by
      intro d hd
      simp [NewHub, hopen d] at hd)
    honce
  refine ⟨h', hrun, hopen', ?_, ?_⟩
  · intro m
    exact ⟨_, RunStep_Broadcast_ok h' m hopen'⟩
  · intro c
    by_cases hc : c ∈ h'.Clients.keys
    · exact ⟨_, RunStep_Unregister_member h' c hc (hopen' c hc)⟩
    · exact ⟨h', RunStep_Unregister_absent h' c ((not_mem_keys_iff_lookup_none _ _).mp hc)⟩

theorem registered_clients_have_open_queues_witness :
    (∀ c, (freshQueues 2 c).closed = false) ∧
    (registeredIn [.req (.Register 1), .req (.Broadcast "a"), .req (.Broadcast "b"),
      .req (.Register 2), .req (.Broadcast "c"), .req (.Unregister 1),
      .req (.Unregister 2), .req (.Unregister 2)]).Nodup ∧
    ∃ h', exec (NewHub (freshQueues 2)) [.req (.Register 1), .req (.Broadcast "a"),
        .req (.Broadcast "b"), .req (.Register 2), .req (.Broadcast "c"),
        .req (.Unregister 1), .req (.Unregister 2), .req (.Unregister 2)] = .ok h' ∧
      (∀ c ∈ h'.Clients.keys, (h'.send c).closed = false) ∧
      (∀ m, ∃ h'', RunStep h' (.Broadcast m) = .ok h'') ∧
      (∀ c, ∃ h'', RunStep h' (.Unregister c) = .ok h'') :=
  ⟨fun _ => rfl, by decide,
    registered_clients_have_open_queues (freshQueues 2) _ (fun _ => rfl) (by decide)⟩

/-! ## The mutex of the hub -/

theorem broadcastToTraced_state (message : Frame) (h : HubState) (c : ClientPtr) :
    (broadcastToTraced message h c).2 = broadcastTo message h c := by
  unfold broadcastToTraced broadcastTo
  cases (h.send c).trySend message with
  | error p => rfl
  | ok r =>
    cases r with
    | some ch => rfl
    | none =>
      cases (h.send c).close with
      | error p => rfl
      | ok ch => rfl

theorem broadcastLoopTraced_state (message : Frame) (l : List ClientPtr) (h : HubState) :
    (broadcastLoopTraced message l h).2 = broadcastLoop message l h := by
  induction l generalizing h with
  | nil => rfl
  | cons c rest ih =>
    have hstate := broadcastToTraced_state message h c
    simp only [broadcastLoopTraced, broadcastLoop]
    cases hb : broadcastToTraced message h c with
    | mk ops r =>
      rw [hb] at hstate
      simp only at hstate
      rw [← hstate]
      cases r with
      | error p => rfl
      | ok h' => exact ih h'

/-- The recording run computes the state of `RunStep`. -/
theorem RunTraced_state (h : HubState) (r : Request) : (RunTraced h r).2 = RunStep h r := by
  cases r with
  | Register c => rfl
  | Unregister c =>
    simp only [RunTraced, RunStep]
    cases h.Clients.lookup c with
    | none => rfl
    | some b =>
      cases (h.send c).close with
      | error p => rfl
      | ok ch => rfl
  | Broadcast m =>
    simp only [RunTraced, RunStep]
    exact broadcastLoopTraced_state m h.Clients.keys h

/-! ## Claims on the in-memory repositories and the file service -/

/-- C28: round trip and error atomicity of the in-memory file repository.
SaveFile of a file f succeeds and GetFile of the ID of f then returns f.
DeleteFile of an id that is not in the store returns the error file not found
and leaves the store as it is.  DeleteFile of an id that is in the store
succeeds, a later GetFile of that id fails with file not found, and every
other id has the entry it had. -/
theorem file_repository_round_trip (r : FileRepository) :
    (∀ f : UploadedFile, (r.SaveFile f).1 = none ∧ (r.SaveFile f).2.GetFile f.ID = .ok f) ∧
    (∀ id : String, r.files.lookup id = none →
      r.DeleteFile id = (some (GoError.errorsNew "file not found"), r)) ∧
    (∀ (id : String) (f : UploadedFile), r.files.lookup id = some f →
      (r.DeleteFile id).1 = none ∧
      (r.DeleteFile id).2.GetFile id = .error (GoError.errorsNew "file not found") ∧
      ∀ other : String, other ≠ id →
        (r.DeleteFile id).2.files.lookup other = r.files.lookup other) := by
  refine ⟨?_, ?_, ?_⟩
  · intro f
    simp [FileRepository.SaveFile, FileRepository.GetFile, AList.lookup_insert]
  · intro id hid
    simp [FileRepository.DeleteFile, hid]
  · intro id f hid
    refine ⟨by simp [FileRepository.DeleteFile, hid], ?_, ?_⟩
    · simp [FileRepository.DeleteFile, hid, FileRepository.GetFile, AList.lookup_erase]
    · intro other hne
      simp [FileRepository.DeleteFile, hid, AList.lookup_erase_ne hne]

theorem file_repository_round_trip_witness :
    (NewFileRepository.SaveFile sampleFile).2.files.lookup "missing" = none ∧
    (NewFileRepository.SaveFile sampleFile).2.DeleteFile "missing"
      = (some (GoError.errorsNew "file not found"), (NewFileRepository.SaveFile sampleFile).2) ∧
    (NewFileRepository.SaveFile sampleFile).2.files.lookup "u1" = some sampleFile ∧
    ((NewFileRepository.SaveFile sampleFile).2.DeleteFile "u1").1 = none ∧
    ((NewFileRepository.SaveFile sampleFile).2.DeleteFile "u1").2.GetFile "u1"
      = .error (GoError.errorsNew "file not found") :=
  ⟨by decide,
    (file_repository_round_trip (NewFileRepository.SaveFile sampleFile).2).2.1 "missing"
      (by decide),
    by decide,
    ((file_repository_round_trip (NewFileRepository.SaveFile sampleFile).2).2.2 "u1" sampleFile
      (by decide)).1,
    ((file_repository_round_trip (NewFileRepository.SaveFile sampleFile).2).2.2 "u1" sampleFile
      (by decide)).2.1⟩

/-- A successful `UploadFile` is its three repository calls taken one after the
other with no call of another request between them. -/
theorem UploadFile_is_three_steps (s s' : FileService) (w : World) (hdr : FileHeader)
    (folderID folderName : String) (f : UploadedFile) (other : UploadCall)
    (hup : s.UploadFile w hdr folderID folderName = (.ok f, s')) :
    overlap [.first, .first, .first] s
        { folderID := folderID, uploadedFile := f, point := .atSaveFile } other
      = (s', { folderID := folderID, uploadedFile := f, point := .returned (.ok f) }, other) := by
  unfold FileService.UploadFile at hup
  split at hup
  · cases hup
  · simp only at hup
    split at hup
    · cases hup
    · split at hup
      · cases hup
      · split at hup
        · cases hup
        · split at hup
          · cases hup
          · split at hup
            · cases hup
            · simp only [FileRepository.SaveFile, Prod.mk.injEq, Except.ok.injEq] at hup
              obtain ⟨hf, hs⟩ := hup
              subst hf
              subst hs
              simp [overlap, UploadCall.step, FileRepository.SaveFile]

/-- Outcome of `UploadFile` for a file within the size limit whose extension is
not allowed. -/
theorem UploadFile_type_not_allowed (s : FileService) (w : World) (hdr : FileHeader)
    (folderID folderName : String) (hsize : ¬ hdr.Size > s.maxFileSize)
    (hext : s.isAllowedExtension (uploadExt w hdr.Filename) = false) :
    s.UploadFile w hdr folderID folderName
      = (.error (GoError.errorsNew "file type not allowed"), s) := by
  simp [FileService.UploadFile, hsize, hext]

/-- The errors that `UploadFile` returns for a file that passes both checks
come from the libraries, not from `errors.New`. -/
theorem UploadFile_checks_passed (s : FileService) (w : World) (hdr : FileHeader)
    (folderID folderName : String) (hsize : ¬ hdr.Size > s.maxFileSize)
    (hext : s.isAllowedExtension (uploadExt w hdr.Filename) = true) (text : String) :
    (s.UploadFile w hdr folderID folderName).1 ≠ .error (GoError.errorsNew text) := by
  unfold FileService.UploadFile
  simp only [hsize, if_false, hext, Bool.not_true, Bool.false_eq_true]
  cases w.openHeader with
  | some err => simp
  | none =>
    simp only
    cases w.mkdirAll (w.join s.uploadPath folderID) with
    | some err => simp
    | none =>
      simp only
      cases w.create _ with
      | some err => simp
      | none =>
        simp only
        cases w.copy with
        | some err => simp
        | none => simp [FileRepository.SaveFile]

/-- C26: UploadFile returns the error file size exceeds maximum allowed size
if and only if the size of the file is strictly greater than maxFileSize; a
file of exactly maxFileSize bytes does not get this error; and when the file
is rejected for its size the service is left as it was: nothing is saved to
the file repository and no folder file count is changed. -/
theorem size_check_is_strict (s : FileService) (w : World) (hdr : FileHeader)
    (folderID folderName : String) :
    ((s.UploadFile w hdr folderID folderName).1
        = .error (GoError.errorsNew "file size exceeds maximum allowed size") ↔
      hdr.Size > s.maxFileSize) ∧
    (hdr.Size = s.maxFileSize →
      (s.UploadFile w hdr folderID folderName).1
        ≠ .error (GoError.errorsNew "file size exceeds maximum allowed size")) ∧
    (hdr.Size > s.maxFileSize → (s.UploadFile w hdr folderID folderName).2 = s) := by
  have hiff : (s.UploadFile w hdr folderID folderName).1
        = .error (GoError.errorsNew "file size exceeds maximum allowed size") ↔
      hdr.Size > s.maxFileSize := by
    constructor
    · intro hres
      by_contra hsize
      cases hext : s.isAllowedExtension (uploadExt w hdr.Filename) with
      | false =>
        rw [UploadFile_type_not_allowed s w hdr folderID folderName hsize hext] at hres
        simp at hres
      | true => exact UploadFile_checks_passed s w hdr folderID folderName hsize hext _ hres
    · intro hsize
      simp [FileService.UploadFile, hsize]
  refine ⟨hiff, ?_, ?_⟩
  · intro heq hres
    have hgt := hiff.mp hres
    omega
  · intro hsize
    simp [FileService.UploadFile, hsize]

theorem size_check_is_strict_witness :
    (sampleService.UploadFile calmWorld { Filename := "a.pdf", Size := 101 } "f1" "Invoices").1
      = .error (GoError.errorsNew "file size exceeds maximum allowed size") ∧
    (sampleService.UploadFile calmWorld { Filename := "a.pdf", Size := 100 } "f1" "Invoices").1
      ≠ .error (GoError.errorsNew "file size exceeds maximum allowed size") ∧
    (sampleService.UploadFile calmWorld { Filename := "a.pdf", Size := 101 } "f1" "Invoices").2
      = sampleService :=
  ⟨(size_check_is_strict sampleService calmWorld { Filename := "a.pdf", Size := 101 } "f1"
      "Invoices").1.mpr (by decide),
    (size_check_is_strict sampleService calmWorld { Filename := "a.pdf", Size := 100 } "f1"
      "Invoices").2.1 (by decide),
    (size_check_is_strict sampleService calmWorld { Filename := "a.pdf", Size := 101 } "f1"
      "Invoices").2.2 (by decide)⟩

/-- The handler of `Authenticate` in terms of the parts of the header. -/
theorem Authenticate_parts (s : AuthService) (jwt : JwtLib) (authHeader : String)
    (hne : authHeader ≠ "") :
    AuthMiddleware.Authenticate s jwt authHeader =
      match strings.Split authHeader ' ' with
      | [first, token] =>
        if first = "Bearer" then
          match s.ValidateToken jwt token with
          | .failed _ => .answered (httpError "Invalid token" 401).response
          | .username username => .next username
          | .panicked text => .panicked text
        else .answered (httpError "Invalid authorization header" 401).response
      | _ => .answered (httpError "Invalid authorization header" 401).response := by
  unfold AuthMiddleware.Authenticate
  simp only [hne, if_false]
  cases strings.Split authHeader ' ' with
  | nil => simp
  | cons a rest =>
    cases rest with
    | nil => simp
    | cons b rest =>
      cases rest with
      | nil =>
        by_cases ha : a = "Bearer"
        · simp [ha]
        · simp [ha]
      | cons c rest => simp

/-- The three ways in which the handler of `Authenticate` ends, in terms of the
header and of the way in which `ValidateToken` ends. -/
theorem Authenticate_cases (s : AuthService) (jwt : JwtLib) (authHeader : String) :
    (∀ u, AuthMiddleware.Authenticate s jwt authHeader = .next u ↔
      ∃ token, strings.Split authHeader ' ' = ["Bearer", token] ∧
        s.ValidateToken jwt token = .username u) ∧
    (∀ text, AuthMiddleware.Authenticate s jwt authHeader = .panicked text ↔
      ∃ token, strings.Split authHeader ' ' = ["Bearer", token] ∧
        s.ValidateToken jwt token = .panicked text) ∧
    ((¬ ∃ token u, strings.Split authHeader ' ' = ["Bearer", token] ∧
        s.ValidateToken jwt token = .username u) →
      (¬ ∃ token text, strings.Split authHeader ' ' = ["Bearer", token] ∧
        s.ValidateToken jwt token = .panicked text) →
      ∃ response, AuthMiddleware.Authenticate s jwt authHeader = .answered response ∧
        response.status = 401) := by
  by_cases hempty : authHeader = ""
  · subst hempty
    have hsplit : strings.Split "" ' ' = [""] := by decide
    have hauth : AuthMiddleware.Authenticate s jwt ""
        = .answered (httpError "Authorization header required" 401).response := by
      simp [AuthMiddleware.Authenticate]
    refine ⟨?_, ?_, ?_⟩
    · intro u
      rw [hauth, hsplit]
      simp
    · intro text
      rw [hauth, hsplit]
      simp
    · intro _ _
      exact ⟨(httpError "Authorization header required" 401).response, hauth, rfl⟩
  · rw [Authenticate_parts s jwt authHeader hempty]
    cases strings.Split authHeader ' ' with
    | nil => exact ⟨fun u => by simp, fun text => by simp,
        fun _ _ => ⟨(httpError "Invalid authorization header" 401).response, rfl, rfl⟩⟩
    | cons a rest =>
      cases rest with
      | nil => exact ⟨fun u => by simp, fun text => by simp,
        fun _ _ => ⟨(httpError "Invalid authorization header" 401).response, rfl, rfl⟩⟩
      | cons b rest =>
        cases rest with
        | cons c rest => exact ⟨fun u => by simp, fun text => by simp,
        fun _ _ => ⟨(httpError "Invalid authorization header" 401).response, rfl, rfl⟩⟩
        | nil =>
          by_cases ha : a = "Bearer"
          · subst ha
            cases hV : s.ValidateToken jwt b with
            | failed err =>
              refine ⟨fun u => by simp [hV], fun text => by simp [hV],
                fun _ _ => ⟨(httpError "Invalid token" 401).response, ?_, rfl⟩⟩
              simp [hV]
            | username username =>
              refine ⟨fun u => by simp [hV], fun text => by simp [hV], fun hnot _ => ?_⟩
              exact absurd ⟨b, username, rfl, hV⟩ hnot
            | panicked text =>
              refine ⟨fun u => by simp [hV], fun text => by simp [hV], fun _ hnot => ?_⟩
              exact absurd ⟨b, text, rfl, hV⟩ hnot
          · refine ⟨fun u => by simp [ha], fun text => by simp [ha],
              fun _ _ => ⟨(httpError "Invalid authorization header" 401).response, ?_, rfl⟩⟩
            simp [ha]

/-- `ValidateToken` panics exactly on a token that the library parses, with map
claims and the flag `Valid`, whose claim `username` is not a string. -/
theorem ValidateToken_panics_iff (s : AuthService) (jwt : JwtLib) (tokenString text : String) :
    s.ValidateToken jwt tokenString = .panicked text ↔
      ∃ claims, jwt.Parse tokenString s.keyFunc = .ok { mapClaims := some claims, Valid := true } ∧
        (∀ u, claimAt claims "username" ≠ .string u) ∧
        text = "interface conversion: interface \x7b\x7d is not string" := by
  unfold AuthService.ValidateToken
  cases hparse : jwt.Parse tokenString s.keyFunc with
  | error err => simp
  | ok token =>
    obtain ⟨mapClaims, valid⟩ := token
    cases mapClaims with
    | none => simp
    | some claims =>
      cases valid with
      | false => simp
      | true =>
        simp only [Except.ok.injEq, JwtToken.mk.injEq, Option.some.injEq, and_true,
          exists_eq_left']
        generalize claimAt claims "username" = value
        cases value <;> simp <;> exact eq_comm

/-- C24: the handler returned by Authenticate does not answer every request
that it does not pass on.  The header `Bearer no-name` carries a token that
the library parses as valid, with map claims that have no claim username:
ValidateToken panics at its type assertion, and the handler neither calls the
wrapped handler nor answers with status 401.  The rest of the sentence holds:
the wrapped handler is called, with the username in the context, if and only
if the header splits on single spaces into exactly Bearer and a token for
which ValidateToken returns that username; the handler panics if and only if
the header has that form and ValidateToken panics on the token, which it does
exactly on a parsed, valid token with map claims whose claim username is not a
string; and in every remaining case the answer has status 401. -/
theorem authenticate_panics_without_username_claim :
    (AuthMiddleware.Authenticate sampleAuth sampleJwt "Bearer no-name"
        = .panicked "interface conversion: interface \x7b\x7d is not string" ∧
      (∀ u, AuthMiddleware.Authenticate sampleAuth sampleJwt "Bearer no-name" ≠ .next u) ∧
      (∀ response, AuthMiddleware.Authenticate sampleAuth sampleJwt "Bearer no-name"
        ≠ .answered response)) ∧
    (∀ (s : AuthService) (jwt : JwtLib) (authHeader : String),
      (∀ u, AuthMiddleware.Authenticate s jwt authHeader = .next u ↔
        ∃ token, strings.Split authHeader ' ' = ["Bearer", token] ∧
          s.ValidateToken jwt token = .username u) ∧
      (∀ text, AuthMiddleware.Authenticate s jwt authHeader = .panicked text ↔
        ∃ token claims, strings.Split authHeader ' ' = ["Bearer", token] ∧
          jwt.Parse token s.keyFunc = .ok { mapClaims := some claims, Valid := true } ∧
          (∀ u, claimAt claims "username" ≠ .string u) ∧
          text = "interface conversion: interface \x7b\x7d is not string") ∧
      ((¬ ∃ token u, strings.Split authHeader ' ' = ["Bearer", token] ∧
          s.ValidateToken jwt token = .username u) →
        (¬ ∃ token text, strings.Split authHeader ' ' = ["Bearer", token] ∧
          s.ValidateToken jwt token = .panicked text) →
        ∃ response, AuthMiddleware.Authenticate s jwt authHeader = .answered response ∧
          response.status = 401)) := by
  have hrun : AuthMiddleware.Authenticate sampleAuth sampleJwt "Bearer no-name"
      = .panicked "interface conversion: interface \x7b\x7d is not string" := by decide
  refine ⟨⟨hrun, fun u => by rw [hrun]; simp, fun response => by rw [hrun]; simp⟩, ?_⟩
  intro s jwt authHeader
  obtain ⟨hnext, hpanic, hrest⟩ := Authenticate_cases s jwt authHeader
  refine ⟨hnext, fun text => ?_, hrest⟩
  rw [hpanic text]
  constructor
  · rintro ⟨token, hsplit, hV⟩
    obtain ⟨claims, hparse, hclaim, htext⟩ :=
      (ValidateToken_panics_iff s jwt token text).mp hV
    exact ⟨token, claims, hsplit, hparse, hclaim, htext⟩
  · rintro ⟨token, claims, hsplit, hparse, hclaim, htext⟩
    exact ⟨token, hsplit,
      (ValidateToken_panics_iff s jwt token text).mpr ⟨claims, hparse, hclaim, htext⟩⟩

theorem authenticate_panics_without_username_claim_witness :
    (AuthMiddleware.Authenticate sampleAuth sampleJwt "Bearer good" = .next "root") ∧
    (AuthMiddleware.Authenticate sampleAuth sampleJwt "Bearer odd-name"
      = .panicked "interface conversion: interface \x7b\x7d is not string") ∧
    (∃ response, AuthMiddleware.Authenticate sampleAuth sampleJwt "bearer good"
      = .answered response ∧ response.status = 401) ∧
    (∃ response, AuthMiddleware.Authenticate sampleAuth sampleJwt "Bearer forged"
      = .answered response ∧ response.status = 401) :=
  ⟨((authenticate_panics_without_username_claim.2 sampleAuth sampleJwt "Bearer good").1
      "root").mpr ⟨"good", by decide, by decide⟩,
    ((authenticate_panics_without_username_claim.2 sampleAuth sampleJwt "Bearer odd-name").2.1
      _).mpr ⟨"odd-name", [("username", .int 7), ("exp", .int 86400)], by decide, rfl,
        (fun u hu => by
          have hclaim : claimAt [("username", GoValue.int 7), ("exp", GoValue.int 86400)]
              "username" = GoValue.int 7 := rfl
          rw [hclaim] at hu
          cases hu), rfl⟩,
    (authenticate_panics_without_username_claim.2 sampleAuth sampleJwt "bearer good").2.2
      (by
        rintro ⟨token, u, hsplit, _⟩
        have hparts : strings.Split "bearer good" ' ' = ["bearer", "good"] := by decide
        rw [hparts] at hsplit
        simp at hsplit)
      (by
        rintro ⟨token, text, hsplit, _⟩
        have hparts : strings.Split "bearer good" ' ' = ["bearer", "good"] := by decide
        rw [hparts] at hsplit
        simp at hsplit),
    (authenticate_panics_without_username_claim.2 sampleAuth sampleJwt "Bearer forged").2.2
      (by
        rintro ⟨token, u, hsplit, hV⟩
        have hparts : strings.Split "Bearer forged" ' ' = ["Bearer", "forged"] := by decide
        rw [hparts] at hsplit
        simp at hsplit
        subst hsplit
        have hfail : sampleAuth.ValidateToken sampleJwt "forged"
            = .failed (.external "token is malformed") := by decide
        rw [hfail] at hV
        simp at hV)
      (by
        rintro ⟨token, text, hsplit, hV⟩
        have hparts : strings.Split "Bearer forged" ' ' = ["Bearer", "forged"] := by decide
        rw [hparts] at hsplit
        simp at hsplit
        subst hsplit
        have hfail : sampleAuth.ValidateToken sampleJwt "forged"
            = .failed (.external "token is malformed") := by decide
        rw [hfail] at hV
        simp at hV)⟩

/-- C25: Login does not tell which credential was wrong.  A login with a
username that the admin repository does not know, whatever the password, and a
login with the known username and a password that does not match the stored
hash, return the same result: the empty token and the error invalid
credentials. -/
theorem login_failures_are_indistinguishable (s : AuthService) (lib : AuthLib)
    (unknown known password₁ password₂ : String) (mismatch : String)
    (hunknown : s.adminRepo.admin.Username ≠ unknown)
    (hknown : s.adminRepo.admin.Username = known)
    (hwrong : lib.compareHashAndPassword s.adminRepo.admin.PasswordHash password₂
      = some mismatch) :
    s.Login lib unknown password₁ = s.Login lib known password₂ ∧
      s.Login lib unknown password₁ = ("", some (GoError.errorsNew "invalid credentials")) := by
  have hfirst : s.Login lib unknown password₁
      = ("", some (GoError.errorsNew "invalid credentials")) := by
    simp [AuthService.Login, AdminRepository.GetAdminByUsername, hunknown]
  have hsecond : s.Login lib known password₂
      = ("", some (GoError.errorsNew "invalid credentials")) := by
    simp [AuthService.Login, AdminRepository.GetAdminByUsername, hknown, hwrong]
  exact ⟨by rw [hfirst, hsecond], hfirst⟩

theorem login_failures_are_indistinguishable_witness :
    sampleAuth.adminRepo.admin.Username ≠ "guest" ∧
    sampleAuth.adminRepo.admin.Username = "root" ∧
    sampleAuth.Login sampleAuthLib "guest" "secret" = sampleAuth.Login sampleAuthLib "root" "x" ∧
    sampleAuth.Login sampleAuthLib "guest" "secret"
      = ("", some (GoError.errorsNew "invalid credentials")) :=
  ⟨by decide, by decide,
    login_failures_are_indistinguishable sampleAuth sampleAuthLib "guest" "root" "secret" "x"
      "crypto/bcrypt: hashedPassword is not the hash of the given password"
      (by decide) (by decide) (by decide)⟩

/-! ## Every drop of a client is a write under the read lock -/

/-- Without a call of `Lock`, every write of the map in a sequence of
operations is unprotected. -/
theorem write_unprotected_without_Lock (ops : List Op) (mode : LockMode) (op : Op)
    (hmode : mode ≠ LockMode.exclusive) (hnoLock : Op.Lock ∉ ops)
    (hop : op ∈ ops) (hw : op.writesClients = true) :
    op ∈ unprotectedWrites mode ops := by
  induction ops generalizing mode with
  | nil => cases hop
  | cons o rest ih =>
    have ho : o ≠ Op.Lock := fun e => hnoLock (e ▸ List.mem_cons_self _ _)
    have hrest : Op.Lock ∉ rest := fun hmem => hnoLock (List.mem_cons_of_mem _ hmem)
    have hafter : mode.after o ≠ LockMode.exclusive := by
      cases o <;> simp_all [LockMode.after]
    simp only [unprotectedWrites, List.mem_append]
    rcases List.mem_cons.mp hop with heq | hin
    · left
      subst heq
      simp [hw, hmode]
    · right
      exact ih (mode.after o) hafter hrest hin

theorem broadcastToTraced_no_Lock (message : Frame) (h : HubState) (c : ClientPtr) :
    Op.Lock ∉ (broadcastToTraced message h c).1 := by
  unfold broadcastToTraced
  cases (h.send c).trySend message with
  | error p => simp
  | ok r =>
    cases r with
    | some ch => simp
    | none =>
      cases (h.send c).close with
      | error p => simp
      | ok ch => simp

theorem broadcastLoopTraced_no_Lock (message : Frame) (l : List ClientPtr) (h : HubState) :
    Op.Lock ∉ (broadcastLoopTraced message l h).1 := by
  induction l generalizing h with
  | nil => simp [broadcastLoopTraced]
  | cons c rest ih =>
    have hone := broadcastToTraced_no_Lock message h c
    simp only [broadcastLoopTraced]
    cases hb : broadcastToTraced message h c with
    | mk ops r =>
      rw [hb] at hone
      cases r with
      | error p => exact hone
      | ok h' =>
        simp only [List.mem_append, not_or]
        exact ⟨hone, ih h'⟩

/-- The loop deletes every visited client whose queue is full, when the
queues of the visited clients are open. -/
theorem broadcastLoopTraced_deletes (message : Frame) (l : List ClientPtr) (h : HubState)
    (p : ClientPtr) (hnodup : l.Nodup) (hopen : ∀ c ∈ l, (h.send c).closed = false)
    (hp : p ∈ l) (hfull : (h.send p).isFull = true) :
    Op.mapDelete p ∈ (broadcastLoopTraced message l h).1 := by
  induction l generalizing h with
  | nil => cases hp
  | cons c rest ih =>
    have hc : c ∉ rest := (List.nodup_cons.mp hnodup).1
    have hrest : rest.Nodup := (List.nodup_cons.mp hnodup).2
    have hcopen : (h.send c).closed = false := hopen c (List.mem_cons_self c rest)
    have hstate := broadcastToTraced_state message h c
    rw [broadcastTo_open message h c hcopen] at hstate
    simp only [broadcastLoopTraced]
    cases hb : broadcastToTraced message h c with
    | mk ops r =>
      rw [hb] at hstate
      simp only at hstate
      subst hstate
      simp only [List.mem_append]
      rcases List.mem_cons.mp hp with heq | hin
      · left
        subst heq
        have hlt : ¬ (h.send p).buf.length < (h.send p).cap := by
          simp only [Chan.isFull, decide_eq_true_eq] at hfull
          omega
        have hops : (broadcastToTraced message h p).1
            = [Op.mapRead p, Op.chanClose p, Op.mapDelete p] := by
          simp [broadcastToTraced, Chan.trySend, Chan.close, hcopen, hlt]
        rw [hb] at hops
        simp only at hops
        rw [hops]
        simp
      · right
        have hne : p ≠ c := fun e => hc (e ▸ hin)
        apply ih _ hrest
        · intro d hd
          have hdc : d ≠ c := fun e => hc (e ▸ hd)
          simp only [Function.update_noteq hdc]
          exact hopen d (List.mem_cons_of_mem c hd)
        · exact hin
        · simp only [Function.update_noteq hne]
          exact hfull

/-- C22 at the failing input: in the hub with clients 1 and 2, the queue of 2
full, the Broadcast branch deletes client 2 from Clients while the mutex is
held in shared (read) mode only: the operations are RLock, the close of the
queue of client 2, the delete of client 2, the send to client 1, RUnlock.  The
same holds in every state whose registered clients have open queues: the
delete of each registered client with a full queue is a write of Clients
outside the exclusive lock.  The Register and the Unregister branches, in
every state, write Clients under the exclusive lock. -/
theorem broadcast_deletes_under_read_lock :
    (RunTraced busyHub (.Broadcast "m")).1 =
      [Op.RLock, Op.mapRead 2, Op.chanClose 2, Op.mapDelete 2, Op.mapRead 1, Op.chanSend 1,
        Op.RUnlock] ∧
    unprotectedWrites LockMode.free (RunTraced busyHub (.Broadcast "m")).1 = [Op.mapDelete 2] ∧
    (∀ (h : HubState) (m : Frame) (p : ClientPtr),
      (∀ c ∈ h.Clients.keys, (h.send c).closed = false) → p ∈ h.Clients.keys →
      (h.send p).cap ≤ (h.send p).buf.length →
      Op.mapDelete p ∈ unprotectedWrites LockMode.free (RunTraced h (.Broadcast m)).1) ∧
    (∀ (h : HubState) (c : ClientPtr),
      unprotectedWrites LockMode.free (RunTraced h (.Register c)).1 = []) ∧
    (∀ (h : HubState) (c : ClientPtr),
      unprotectedWrites LockMode.free (RunTraced h (.Unregister c)).1 = []) := by
  refine ⟨by decide, by decide, ?_, ?_, ?_⟩
  · intro h m p hopen hp hfull
    have hpf : (h.send p).isFull = true := by simp [Chan.isFull, hfull]
    have hdel := broadcastLoopTraced_deletes m h.Clients.keys h p h.Clients.keys_nodup hopen hp
      hpf
    have hnoLock := broadcastLoopTraced_no_Lock m h.Clients.keys h
    have htrace : (RunTraced h (.Broadcast m)).1
        = Op.RLock :: (broadcastLoopTraced m h.Clients.keys h).1 := rfl
    rw [htrace]
    apply write_unprotected_without_Lock _ _ _ (by decide)
    · intro hmem
      rcases List.mem_cons.mp hmem with heq | hin
      · cases heq
      · exact hnoLock hin
    · exact List.mem_cons_of_mem _ hdel
    · rfl
  · intro h c
    simp [RunTraced, unprotectedWrites, Op.writesClients, LockMode.after]
  · intro h c
    simp only [RunTraced]
    cases h.Clients.lookup c with
    | none => simp [unprotectedWrites, Op.writesClients, LockMode.after]
    | some b =>
      cases (h.send c).close with
      | error p => simp [unprotectedWrites, Op.writesClients, LockMode.after]
      | ok ch => simp [unprotectedWrites, Op.writesClients, LockMode.after]

theorem broadcast_deletes_under_read_lock_witness :
    (∀ c ∈ busyHub.Clients.keys, (busyHub.send c).closed = false) ∧
    2 ∈ busyHub.Clients.keys ∧ (busyHub.send 2).cap ≤ (busyHub.send 2).buf.length ∧
    Op.mapDelete 2 ∈ unprotectedWrites LockMode.free (RunTraced busyHub (.Broadcast "m")).1 :=
  ⟨by decide, by decide, by decide,
    broadcast_deletes_under_read_lock.2.2.1 busyHub "m" 2 (by decide) (by decide) (by decide)⟩

end IkonPrintzz
